import Mathlib

/-!
Verification of the CloudStash backup integration.

This file is a shallow embedding, in Lean, of the parts of the CloudStash
source that the specification talks about:

* the key codec of `custom_components/cloudstash/backup.py`
  (`CloudStashAgent._resolve_root`, `_derive_object_names`);
* the listing cache and paginated listing refresh
  (`CloudStashAgent._fetch_listing`, `_drop_cache`);
* the size-adaptive upload strategy
  (`CloudStashAgent.async_upload_backup`, `_put_single`, `_put_chunked`);
* the error-translation decorator `_wrap_storage_errors`;
* the thread-bridged proxy `ObjectStorageGateway` of
  `custom_components/cloudstash/__init__.py`.

Python byte strings are modelled as `List Nat`, object keys as `String`,
raised exceptions as an explicit `PyError` value in an `Except`/`Option`
result, and every remote call issued by the agent is recorded as a
`GwEvent` in an event trace, so that theorems can count and inspect the
calls a code path performs.  The remote store is abstracted by a behaviour
record (`GwBehavior` for uploads, a page list for listings) that says how
each call would respond; all definitions are computable so that concrete
runs evaluate by `rfl`/`decide`.
-/

namespace CloudStash

/-- Exception values of the Python code, by class.  Note the class
hierarchy fact this encodes: in `botocore.exceptions`, `ClientError`
derives from `Exception` directly, *not* from `BotoCoreError`, so an
`except BotoCoreError` clause does not catch a `ClientError`.
`backupAgentError` and `backupNotFound` are the Home Assistant backup
domain errors (`BackupNotFound` subclasses `BackupAgentError`); the
`attributeError` payload names the attribute that was missing. -/
inductive PyError where
  | botoCoreError
  | clientError
  | backupAgentError (msg : String)
  | backupNotFound (msg : String)
  | runtimeError (msg : String)
  | attributeError (attr : String)
deriving DecidableEq

/-! ## Key codec

`CloudStashAgent._resolve_root` (backup.py lines 123-127) and
`_derive_object_names` (backup.py lines 93-96), together with
`STORAGE_DIR = "backups"` from const.py. -/

/-- Character test used by `str.strip("/")`. -/
def isSlash (c : Char) : Bool := c == '/'

/-- Python `s.strip("/")` on the character list of `s`: remove every
leading and every trailing `'/'`. -/
def stripL (l : List Char) : List Char :=
  ((l.dropWhile isSlash).reverse.dropWhile isSlash).reverse

/-- Value of `STORAGE_DIR` in `const.py`. -/
def STORAGE_DIR : String := "backups"

/-- Embedding of `CloudStashAgent._resolve_root`:
`segment = raw_prefix.strip("/")`, then
`f"{segment}/{STORAGE_DIR}/" if segment else f"{STORAGE_DIR}/"`. -/
def resolveRoot (raw : String) : String :=
  let segment := stripL raw.data
  if segment.isEmpty then STORAGE_DIR ++ "/"
  else String.mk segment ++ "/" ++ STORAGE_DIR ++ "/"

/-- Python `filename.rsplit(".", 1)[0]` on the character list: everything
before the last dot when the filename contains a dot, the whole filename
otherwise. -/
def stemOf (l : List Char) : List Char :=
  if l.contains '.' then ((l.reverse.dropWhile (fun c => !(c == '.'))).drop 1).reverse
  else l

/-- Embedding of `_derive_object_names`: the canonical filename produced
by the external helper `suggested_filename(backup)` is taken as the
`filename` argument; the stem is `filename.rsplit(".", 1)[0]` and the two
object names append `.tar` and `.metadata.json` to it. -/
def deriveObjectNames (filename : String) : String × String :=
  (String.mk (stemOf filename.data) ++ ".tar",
   String.mk (stemOf filename.data) ++ ".metadata.json")

/-! ## Storage Gateway (`__init__.py`, `ObjectStorageGateway`)

The gateway's observable control state: `handle` is `self._handle` (the
S3 client, `None` until `launch()` runs `_open` on the worker loop),
`loop` is `self._loop` (`None` until the worker thread starts), `running`
is `self._running`.  Every proxied operation has the shape
`return await self._run(self._handle.<op>(**kw))`; Python evaluates the
argument `self._handle.<op>(**kw)` first, so a `None` handle raises
`AttributeError` before `_run`'s `self._loop is None` check is ever
reached. -/

/-- Names of the nine proxied S3 operations of `ObjectStorageGateway`. -/
inductive GwOp where
  | headBucket
  | listObjectsV2
  | getObject
  | putObject
  | deleteObject
  | createMultipartUpload
  | uploadPart
  | completeMultipartUpload
  | abortMultipartUpload
deriving DecidableEq

/-- Python method name of each proxied operation, as it appears in the
`AttributeError` for a `None` handle. -/
def gwOpAttr : GwOp → String
  | .headBucket => "head_bucket"
  | .listObjectsV2 => "list_objects_v2"
  | .getObject => "get_object"
  | .putObject => "put_object"
  | .deleteObject => "delete_object"
  | .createMultipartUpload => "create_multipart_upload"
  | .uploadPart => "upload_part"
  | .completeMultipartUpload => "complete_multipart_upload"
  | .abortMultipartUpload => "abort_multipart_upload"

/-- Control state of one `ObjectStorageGateway` instance. -/
structure GatewayState where
  handle : Option Unit
  loop : Option Unit
  running : Bool
deriving DecidableEq

/-- State right after `__init__`: `self._handle = None`, `self._loop =
None`, `self._running = False`. -/
def initGateway : GatewayState := ⟨none, none, false⟩

/-- Embedding of `launch()` on the control state: a no-op when already
running, otherwise the worker thread sets `_loop`, `_open` sets
`_handle`, and `_running` becomes true.  The bounded ready-wait and the
connectivity probe are outside the claims settled here. -/
def gwLaunch (st : GatewayState) : GatewayState :=
  if st.running then st else ⟨some (), some (), true⟩

/-- Embedding of `ObjectStorageGateway._run`: raises
`RuntimeError("Gateway not started")` when `self._loop is None`,
otherwise bridges the already-created coroutine to the worker loop. -/
def gwRun (st : GatewayState) (coro : Unit) : Except PyError Unit :=
  match st.loop with
  | none => .error (.runtimeError "Gateway not started")
  | some _ => .ok coro

/-- Embedding of one proxied operation
`return await self._run(self._handle.<op>(**kw))`: the attribute access
on `self._handle` happens before `_run` is entered, so a `None` handle
fails with `AttributeError` naming the method. -/
def proxiedOp (st : GatewayState) (op : GwOp) : Except PyError Unit :=
  match st.handle with
  | none => .error (.attributeError (gwOpAttr op))
  | some _ => gwRun st ()

/-! ## Listing cache and listing refresh (`backup.py` lines 201-242)

`CloudStashAgent._fetch_listing` pages through `list_objects_v2`, fetches
every listed object whose key ends in `".metadata.json"`, parses its body
as an `AgentBackup`, and accumulates the parsed records in a dict keyed by
`backup_id`; `(BotoCoreError, json.JSONDecodeError)` for a single object
is logged and skipped.  The remote store is abstracted by the list of
pages the successive `list_objects_v2` calls return (the continuation
token bookkeeping is represented by that in-order page sequence), with
each listed object carrying the outcome of its `get_object` + parse. -/

/-- Parsed backup metadata record (`AgentBackup`), reduced to the fields
the claims need: the identity key of the listing dict and the rest of the
record as an opaque payload. -/
structure BackupRec where
  backupId : String
  payload : String
deriving DecidableEq

/-- Outcome of `get_object` + `json.loads` + `AgentBackup.from_dict` for
one listed object: a parsed record, a `BotoCoreError` transport failure,
a malformed body (`json.JSONDecodeError`), or an S3 error response
(`ClientError`, which the `except (BotoCoreError, json.JSONDecodeError)`
clause does not catch). -/
inductive FetchOutcome where
  | ok (rec : BackupRec)
  | botoCoreError
  | jsonDecodeError
  | clientError
deriving DecidableEq

/-- One object of a `list_objects_v2` response page. -/
structure RemoteObject where
  key : String
  fetch : FetchOutcome
deriving DecidableEq

/-- One `list_objects_v2` response page: its `Contents` and its
`IsTruncated` flag (a truncated page makes the loop issue another call). -/
structure ListPage where
  contents : List RemoteObject
  isTruncated : Bool
deriving DecidableEq

/-- Outcome of one `list_objects_v2` call: a page, or a raised error. -/
inductive PageResult where
  | ok (page : ListPage)
  | botoCoreError
  | clientError
deriving DecidableEq

/-- Python dict assignment `result[k] = v` on an insertion-ordered
association list: replace in place when the key exists, append
otherwise. -/
def dictInsert (m : List (String × BackupRec)) (k : String) (v : BackupRec) :
    List (String × BackupRec) :=
  if m.any (fun kv => kv.1 == k) then
    m.map (fun kv => if kv.1 == k then (k, v) else kv)
  else m ++ [(k, v)]

/-- Python `key.endswith(".metadata.json")`. -/
def endsWithMeta (s : String) : Bool :=
  ".metadata.json".data.isSuffixOf s.data

/-- Embedding of the per-object loop of `_fetch_listing` (lines 221-233):
non-metadata keys are skipped; a fetched record is stored under its
`backup_id`; `BotoCoreError` and `json.JSONDecodeError` are logged and
skipped; any other exception (such as `ClientError`) propagates. -/
def processContents (acc : List (String × BackupRec)) :
    List RemoteObject → Except PyError (List (String × BackupRec))
  | [] => .ok acc
  | o :: rest =>
    if endsWithMeta o.key then
      match o.fetch with
      | .ok rec => processContents (dictInsert acc rec.backupId rec) rest
      | .botoCoreError => processContents acc rest
      | .jsonDecodeError => processContents acc rest
      | .clientError => .error .clientError
    else processContents acc rest

/-- Accumulation of only the successfully fetched and parsed metadata
objects, used to state what `processContents` keeps. -/
def okFold (acc : List (String × BackupRec)) : List RemoteObject → List (String × BackupRec)
  | [] => acc
  | o :: rest =>
    if endsWithMeta o.key then
      match o.fetch with
      | .ok rec => okFold (dictInsert acc rec.backupId rec) rest
      | _ => okFold acc rest
    else okFold acc rest

/-- Keep an object when its fetch outcome parsed successfully. -/
def fetchOk (o : RemoteObject) : Bool :=
  match o.fetch with
  | .ok _ => true
  | _ => false

/-- Embedding of the pagination loop of `_fetch_listing` (lines 214-238):
each iteration issues one `list_objects_v2` call (counted), folds the
page's contents into the accumulator, and continues while `IsTruncated`
is set.  Results and raised errors are bridged out together with the
number of listing calls issued. -/
def fetchPages (acc : List (String × BackupRec)) (calls : Nat) :
    List PageResult → Except PyError (List (String × BackupRec)) × Nat
  | [] => (.ok acc, calls)
  | pr :: rest =>
    match pr with
    | .botoCoreError => (.error .botoCoreError, calls + 1)
    | .clientError => (.error .clientError, calls + 1)
    | .ok page =>
      match processContents acc page.contents with
      | .error e => (.error e, calls + 1)
      | .ok acc2 =>
        if page.isTruncated then fetchPages acc2 (calls + 1) rest
        else (.ok acc2, calls + 1)

/-- Value of `LISTING_CACHE_SECONDS` in `backup.py`. -/
def LISTING_CACHE_SECONDS : Nat := 300

/-- Cache state of one `CloudStashAgent`: `self._listing` and
`self._listing_valid_until` (initially `{}` and `0.0`); `monotonic()`
instants are modelled as naturals. -/
structure AgentCacheState where
  listing : List (String × BackupRec)
  validUntil : Nat
deriving DecidableEq

/-- Embedding of `_fetch_listing` at the cache level: when
`monotonic() <= self._listing_valid_until` the cached mapping is returned
with no remote call; otherwise the pages are fetched, and on success the
cache is replaced and the expiry set to `now + LISTING_CACHE_SECONDS`.
The triple returned is (result, new cache state, number of
`list_objects_v2` calls issued). -/
def listAll (env : List PageResult) (now : Nat) (st : AgentCacheState) :
    Except PyError (List (String × BackupRec)) × AgentCacheState × Nat :=
  if now ≤ st.validUntil then (.ok st.listing, st, 0)
  else
    match fetchPages [] 0 env with
    | (.ok result, calls) => (.ok result, ⟨result, now + LISTING_CACHE_SECONDS⟩, calls)
    | (.error e, calls) => (.error e, st, calls)

/-- Embedding of `_drop_cache`: listing `{}`, expiry `0.0`. -/
def dropCache (_st : AgentCacheState) : AgentCacheState := ⟨[], 0⟩

/-- Embedding of the `_wrap_storage_errors` decorator: only a
`BotoCoreError` is translated, into
`BackupAgentError(f"{fn.__name__} failed")`; every other outcome passes
through unchanged. -/
def wrapStorageErrors {α : Type} (fnName : String) (r : Except PyError α) :
    Except PyError α :=
  match r with
  | .error .botoCoreError => .error (.backupAgentError (fnName ++ " failed"))
  | other => other

/-- Embedding of the decorated `async_list_backups`: the listing values
with `_wrap_storage_errors` applied around the body. -/
def asyncListBackups (env : List PageResult) (now : Nat) (st : AgentCacheState) :
    Except PyError (List BackupRec) × AgentCacheState × Nat :=
  let r := listAll env now st
  (wrapStorageErrors "async_list_backups" (r.1.map (fun m => m.map Prod.snd)), r.2.1, r.2.2)

/-! ## Upload strategy (`backup.py` lines 148-319)

`async_upload_backup` chooses `_put_single` when `backup.size <
CHUNK_THRESHOLD_BYTES` and `_put_chunked` otherwise, then writes the
metadata document.  `_put_chunked` begins a multipart session, slices
exactly-threshold-sized parts off an accumulation buffer, uploads a final
smaller part if bytes remain, completes the session, and on any
`BotoCoreError` after the begin call aborts the session best-effort and
re-raises.  The byte stream is modelled by the list of chunks the
`async for` loop receives; the remote store by a `GwBehavior` record
saying which calls raise `BotoCoreError` and which `ETag` each part gets.
Every call issued is recorded as a `GwEvent`.  The inner `while` loop is
written with an explicit fuel argument — the buffer length, which bounds
its iteration count for any positive threshold — so that runs stay
computable by kernel reduction. -/

/-- Value of `CHUNK_THRESHOLD_BYTES` in `backup.py`. -/
def CHUNK_THRESHOLD_BYTES : Nat := 20 * 2 ^ 20

/-- Remote calls issued during an upload, in issue order. -/
inductive GwEvent where
  | putObject (bucket key : String) (body : List Nat)
  | createMultipartUpload (bucket key : String)
  | uploadPart (bucket key : String) (seq : Nat) (uploadId : String) (body : List Nat)
  | completeMultipartUpload (bucket key : String) (uploadId : String)
      (parts : List (Nat × String))
  | abortMultipartUpload (bucket key : String) (uploadId : String)
deriving DecidableEq

/-- Behaviour of the remote store during an upload: the upload id the
begin call returns, which calls raise `BotoCoreError` (the class the code
catches), and the `ETag` returned for each uploaded part. -/
structure GwBehavior where
  uploadId : String
  createFails : Bool
  partFails : Nat → Bool
  etag : Nat → List Nat → String
  completeFails : Bool
  abortFails : Bool
  putArchiveFails : Bool
  metaPutFails : Bool

/-- Mutable state of `_put_chunked` while reading the stream: `seq` is
the 1-based part counter, `buf` the accumulation buffer, `completed` the
`completed_parts` list of `(PartNumber, ETag)` pairs, `events` the calls
issued so far. -/
structure MpState where
  seq : Nat
  buf : List Nat
  completed : List (Nat × String)
  events : List GwEvent

/-- Embedding of the inner `while len(buf) >= CHUNK_THRESHOLD_BYTES`
loop of `_put_chunked`: slice off exactly `t` bytes, upload them as part
`seq`, record the returned tag, repeat; a failing `upload_part` raises
immediately.  `fuel` bounds the iterations; callers pass the buffer
length, which the lemmas show is enough for any positive `t`. -/
def flushFullParts (gw : GwBehavior) (b k : String) (t : Nat) :
    Nat → List Nat → Nat → List (Nat × String) → List GwEvent → MpState × Option PyError
  | 0, buf, seq, comp, ev => (⟨seq, buf, comp, ev⟩, none)
  | fuel + 1, buf, seq, comp, ev =>
    if t ≤ buf.length then
      let segment := buf.take t
      let rest := buf.drop t
      let ev2 := ev ++ [.uploadPart b k seq gw.uploadId segment]
      if gw.partFails seq then (⟨seq, rest, comp, ev2⟩, some .botoCoreError)
      else flushFullParts gw b k t fuel rest (seq + 1)
        (comp ++ [(seq, gw.etag seq segment)]) ev2
    else (⟨seq, buf, comp, ev⟩, none)

/-- Embedding of the `async for chunk in await open_stream()` loop of
`_put_chunked`: extend the buffer with each incoming chunk, then flush
full parts; a raised error stops the stream. -/
def chunkLoop (gw : GwBehavior) (b k : String) (t : Nat) :
    List (List Nat) → List Nat → Nat → List (Nat × String) → List GwEvent →
      MpState × Option PyError
  | [], buf, seq, comp, ev => (⟨seq, buf, comp, ev⟩, none)
  | c :: cs, buf, seq, comp, ev =>
    match flushFullParts gw b k t ((buf ++ c).length) (buf ++ c) seq comp ev with
    | (st, some e) => (st, some e)
    | (st, none) => chunkLoop gw b k t cs st.buf st.seq st.completed st.events

/-- Embedding of the `except BotoCoreError` handler of `_put_chunked`:
issue the abort call; if the abort itself raises it is logged, not
raised; then re-raise the original error.  Both branches of the abort
outcome return the same value — the original error is what propagates. -/
def abortAndReraise (gw : GwBehavior) (b k : String) (ev : List GwEvent) (e : PyError) :
    List GwEvent × Option PyError :=
  let ev2 := ev ++ [.abortMultipartUpload b k gw.uploadId]
  if gw.abortFails then (ev2, some e) else (ev2, some e)

/-- Embedding of the trailing `complete_multipart_upload` call of
`_put_chunked`, still inside the `try`. -/
def finishComplete (gw : GwBehavior) (b k : String) (ev : List GwEvent)
    (comp : List (Nat × String)) : List GwEvent × Option PyError :=
  let ev2 := ev ++ [.completeMultipartUpload b k gw.uploadId comp]
  if gw.completeFails then abortAndReraise gw b k ev2 .botoCoreError else (ev2, none)

/-- Code of `_put_chunked` after the stream loop: on a raised error,
abort and re-raise; otherwise upload the remaining buffer as the final
(possibly smaller) part if it is non-empty — a failure there also aborts
— then issue the complete call. -/
def afterLoop (gw : GwBehavior) (b k : String) (st : MpState) (r : Option PyError) :
    List GwEvent × Option PyError :=
  match r with
  | some e => abortAndReraise gw b k st.events e
  | none =>
    if st.buf.isEmpty then finishComplete gw b k st.events st.completed
    else
      let ev2 := st.events ++ [.uploadPart b k st.seq gw.uploadId st.buf]
      if gw.partFails st.seq then abortAndReraise gw b k ev2 .botoCoreError
      else finishComplete gw b k ev2 (st.completed ++ [(st.seq, gw.etag st.seq st.buf)])

/-- Embedding of `_put_chunked`: `create_multipart_upload` first —
*outside* the `try`, so its failure propagates with no abort — then the
stream loop and the `afterLoop` tail; any `BotoCoreError` inside the
`try` goes through `abortAndReraise`. -/
def putChunkedRun (gw : GwBehavior) (b k : String) (t : Nat) (chunks : List (List Nat)) :
    List GwEvent × Option PyError :=
  let ev0 : List GwEvent := [.createMultipartUpload b k]
  if gw.createFails then (ev0, some .botoCoreError)
  else
    let res := chunkLoop gw b k t chunks [] 1 [] ev0
    afterLoop gw b k res.1 res.2

/-- Pure shadow of `flushFullParts`: the sliced parts and the remaining
buffer, with the same fuel discipline. -/
def flushPure (t : Nat) : Nat → List Nat → List (List Nat) × List Nat
  | 0, buf => ([], buf)
  | fuel + 1, buf =>
    if t ≤ buf.length then
      let r := flushPure t fuel (buf.drop t)
      (buf.take t :: r.1, r.2)
    else ([], buf)

/-- Pure shadow of `chunkLoop`: all exactly-threshold parts the stream
produces, and the final buffer contents. -/
def accumPure (t : Nat) : List (List Nat) → List Nat → List (List Nat) × List Nat
  | [], buf => ([], buf)
  | c :: cs, buf =>
    let r := flushPure t ((buf ++ c).length) (buf ++ c)
    let r2 := accumPure t cs r.2
    (r.1 ++ r2.1, r2.2)

/-- Bodies of every part a successful `_put_chunked` run uploads: the
full parts, then the final smaller part when bytes remain. -/
def chunkedPartsPure (t : Nat) (chunks : List (List Nat)) : List (List Nat) :=
  let r := accumPure t chunks []
  r.1 ++ (if r.2.isEmpty then [] else [r.2])

/-- Expected `(PartNumber, ETag)` pairs for parts numbered from `seq`. -/
def tagParts (gw : GwBehavior) (seq : Nat) : List (List Nat) → List (Nat × String)
  | [] => []
  | p :: ps => (seq, gw.etag seq p) :: tagParts gw (seq + 1) ps

/-- Expected `upload_part` events for parts numbered from `seq`. -/
def partEvs (gw : GwBehavior) (b k : String) (seq : Nat) :
    List (List Nat) → List GwEvent
  | [] => []
  | p :: ps => .uploadPart b k seq gw.uploadId p :: partEvs gw b k (seq + 1) ps

/-- Bodies of the `upload_part` calls in a trace, in issue order. -/
def partBodiesOf (evs : List GwEvent) : List (List Nat) :=
  evs.filterMap fun e => match e with
    | .uploadPart _ _ _ _ body => some body
    | _ => none

/-- Part numbers of the `upload_part` calls in a trace, in issue order. -/
def partNumbersOf (evs : List GwEvent) : List Nat :=
  evs.filterMap fun e => match e with
    | .uploadPart _ _ seq _ _ => some seq
    | _ => none

/-- Part lists of the `complete_multipart_upload` calls in a trace. -/
def completePartsOf (evs : List GwEvent) : List (List (Nat × String)) :=
  evs.filterMap fun e => match e with
    | .completeMultipartUpload _ _ _ parts => some parts
    | _ => none

/-- Test for a `create_multipart_upload` event. -/
def isCreateEv (e : GwEvent) : Bool :=
  match e with
  | .createMultipartUpload _ _ => true
  | _ => false

/-- Test for an `abort_multipart_upload` event. -/
def isAbortEv (e : GwEvent) : Bool :=
  match e with
  | .abortMultipartUpload _ _ _ => true
  | _ => false

/-- Test for a `put_object` event at a given key. -/
def isPutAt (key : String) (e : GwEvent) : Bool :=
  match e with
  | .putObject _ k _ => k == key
  | _ => false

/-- Number of `create_multipart_upload` calls in a trace. -/
def countCreates (evs : List GwEvent) : Nat := (evs.filter isCreateEv).length

/-- Number of `abort_multipart_upload` calls in a trace. -/
def countAborts (evs : List GwEvent) : Nat := (evs.filter isAbortEv).length

/-- Fields of an `AgentBackup` record that the upload path reads: the
declared `size`, the canonical filename `suggested_filename(backup)`
computes, and the serialized metadata document
`json.dumps(backup.as_dict())`. -/
structure AgentBackupModel where
  backupId : String
  size : Nat
  filename : String
  meta : List Nat

/-- Embedding of `_put_single`: fully buffer the stream, then one
`put_object` call with the complete body at the given key. -/
def putSingleRun (gw : GwBehavior) (bucket key : String) (chunks : List (List Nat)) :
    List GwEvent × Option PyError :=
  ([.putObject bucket key chunks.flatten],
   if gw.putArchiveFails then some .botoCoreError else none)

/-- Translation the `except BotoCoreError` clause of `async_upload_backup`
applies: only a `BotoCoreError` becomes `BackupAgentError("Upload
failed")`; any other exception class propagates unchanged. -/
def wrapUploadErr : PyError → PyError
  | .botoCoreError => .backupAgentError "Upload failed"
  | e => e

/-- Metadata write that follows a successful archive upload: one
`put_object` at the metadata key; its `BotoCoreError`, if any, is what
the surrounding `except` clause turns into
`BackupAgentError("Upload failed")`. -/
def metaWrite (gw : GwBehavior) (bucket metaKey : String) (meta : List Nat)
    (evs : List GwEvent) : List GwEvent × Option PyError :=
  let evs2 := evs ++ [.putObject bucket metaKey meta]
  if gw.metaPutFails then (evs2, some (.backupAgentError "Upload failed"))
  else (evs2, none)

/-- Embedding of `async_upload_backup`: derive the two object names,
choose the single-shot path when `backup.size < CHUNK_THRESHOLD_BYTES`
and the chunked path otherwise, then write the metadata document; a
`BotoCoreError` anywhere in that `try` surfaces as
`BackupAgentError("Upload failed")`.  (The cache invalidation performed
on success acts on the separately modelled `AgentCacheState`.) -/
def uploadBackupRun (gw : GwBehavior) (bucket root : String)
    (backup : AgentBackupModel) (chunks : List (List Nat)) :
    List GwEvent × Option PyError :=
  let names := deriveObjectNames backup.filename
  let run :=
    if backup.size < CHUNK_THRESHOLD_BYTES
    then putSingleRun gw bucket (root ++ names.1) chunks
    else putChunkedRun gw bucket (root ++ names.1) CHUNK_THRESHOLD_BYTES chunks
  match run with
  | (evs, some e) => (evs, some (wrapUploadErr e))
  | (evs, none) => metaWrite gw bucket (root ++ names.2) backup.meta evs

/-! ## Theorems about the key codec -/

/-- Appending strings appends their character lists. -/
theorem sdata_append (a b : String) : (a ++ b).data = a.data ++ b.data := by
  cases a; cases b; rfl

/-- Strings with equal character lists are equal. -/
theorem sdata_ext {a b : String} (h : a.data = b.data) : a = b := by
  cases a; cases b; cases h; rfl

/-- Heads surviving `dropWhile` falsify the predicate. -/
theorem head_dropWhile_false {p : Char → Bool} :
    ∀ {l : List Char} {c : Char}, (l.dropWhile p).head? = some c → p c = false := by
  intro l
  induction l with
  | nil => intro c h; simp [List.dropWhile] at h
  | cons a t ih =>
    intro c h
    by_cases hp : p a
    · rw [List.dropWhile_cons_of_pos hp] at h; exact ih h
    · rw [List.dropWhile_cons_of_neg hp] at h
      simp at h
      subst h
      exact Bool.eq_false_iff.mpr hp

/-- Dropping a satisfying block: `dropWhile` walks past a list all of
whose elements satisfy the predicate. -/
theorem dropWhile_append_all {p : Char → Bool} :
    ∀ {l : List Char}, (∀ c ∈ l, p c = true) → ∀ r : List Char,
      (l ++ r).dropWhile p = r.dropWhile p := by
  intro l
  induction l with
  | nil => intro _ r; rfl
  | cons a t ih =>
    intro h r
    have ha : p a = true := h a (by simp)
    simp only [List.cons_append, List.dropWhile_cons_of_pos ha]
    exact ih (fun c hc => h c (by simp [hc])) r

/-- Membership in `a ++ x :: b` makes `contains` true. -/
theorem contains_append_cons (a b : List Char) (x : Char) :
    (a ++ x :: b).contains x = true := by
  have : x ∈ a ++ x :: b := by simp
  exact List.elem_eq_true_of_mem this

/-- Result of `stripL` never starts with a slash. -/
theorem stripL_head_not_slash {l : List Char} {c : Char}
    (h : (stripL l).head? = some c) : isSlash c = false := by
  unfold stripL at h
  set d := l.dropWhile isSlash with hd
  have hdec : d.reverse.takeWhile isSlash ++ d.reverse.dropWhile isSlash = d.reverse :=
    List.takeWhile_append_dropWhile isSlash d.reverse
  have hdsplit : d = (d.reverse.dropWhile isSlash).reverse ++ (d.reverse.takeWhile isSlash).reverse := by
    conv_lhs => rw [← List.reverse_reverse d, ← hdec]
    rw [List.reverse_append]
  set w := (d.reverse.dropWhile isSlash).reverse with hw
  have hw_ne : w ≠ [] := by
    intro hnil
    rw [hnil] at h
    simp at h
  have hhead : w.head? = d.head? := by
    rw [hdsplit]
    exact (List.head?_append_of_ne_nil _ hw_ne).symm
  have : d.head? = some c := by rw [← hhead]; exact h
  exact head_dropWhile_false this

/-- Branch form of `resolveRoot`. -/
theorem resolveRoot_eq (raw : String) :
    resolveRoot raw = (if (stripL raw.data).isEmpty then "backups/"
      else String.mk (stripL raw.data) ++ "/backups/") := by
  show (if (stripL raw.data).isEmpty then STORAGE_DIR ++ "/"
        else String.mk (stripL raw.data) ++ "/" ++ STORAGE_DIR ++ "/") = _
  by_cases he : (stripL raw.data).isEmpty
  · rw [if_pos he, if_pos he]
    decide
  · rw [if_neg he, if_neg he]
    apply sdata_ext
    simp only [sdata_append]
    simp only [List.append_assoc]
    exact congrArg (fun t => stripL raw.data ++ t) (by decide)

/-- C8. For every raw string, `_resolve_root` yields a key root that ends
with exactly one separator, never starts with one, and equals `"backups/"`
when the slash-stripped input is empty and `"<trimmed>/backups/"`
otherwise. -/
theorem c8_resolve_root_shape (raw : String) :
    (resolveRoot raw).data.getLast? = some '/'
    ∧ (resolveRoot raw).data.dropLast.getLast? ≠ some '/'
    ∧ (∀ c, (resolveRoot raw).data.head? = some c → c ≠ '/')
    ∧ resolveRoot raw =
        (if (stripL raw.data).isEmpty then "backups/"
         else String.mk (stripL raw.data) ++ "/backups/") := by
  have heq := resolveRoot_eq raw
  have hshape : ∃ pre : List Char, (resolveRoot raw).data = pre ++ ['s', '/'] := by
    by_cases he : (stripL raw.data).isEmpty
    · rw [if_pos he] at heq
      exact ⟨['b', 'a', 'c', 'k', 'u', 'p'], by rw [heq]; decide⟩
    · rw [if_neg he] at heq
      refine ⟨stripL raw.data ++ ['/', 'b', 'a', 'c', 'k', 'u', 'p'], ?_⟩
      rw [heq, sdata_append]
      rw [show (String.mk (stripL raw.data)).data = stripL raw.data from rfl]
      rw [show ("/backups/" : String).data = ['/', 'b', 'a', 'c', 'k', 'u', 'p', 's', '/'] from rfl]
      simp
  obtain ⟨pre, hpre⟩ := hshape
  refine ⟨?_, ?_, ?_, resolveRoot_eq raw⟩
  · rw [hpre, show pre ++ ['s', '/'] = (pre ++ ['s']) ++ ['/'] by simp, List.getLast?_concat]
  · rw [hpre, show pre ++ ['s', '/'] = (pre ++ ['s']) ++ ['/'] by simp,
      List.dropLast_concat, List.getLast?_concat]
    decide
  · intro c hc hcslash
    subst hcslash
    by_cases he : (stripL raw.data).isEmpty
    · rw [if_pos he] at heq
      rw [heq] at hc
      rw [show ("backups/" : String).data.head? = some 'b' from rfl] at hc
      exact absurd (Option.some.inj hc) (by decide)
    · rw [if_neg he] at heq
      rw [heq, sdata_append] at hc
      rw [show (String.mk (stripL raw.data)).data = stripL raw.data from rfl] at hc
      have hne : stripL raw.data ≠ [] := fun hnil => he (by rw [hnil]; rfl)
      rw [List.head?_append_of_ne_nil _ hne] at hc
      have := stripL_head_not_slash hc
      simp [isSlash] at this

/-- Concrete evaluation backing `c8_resolve_root_shape`: instantiation at
the raw value `"//cfg//"`. -/
theorem c8_resolve_root_shape_witness :
    resolveRoot "//cfg//" = "cfg/backups/"
    ∧ ((resolveRoot "//cfg//").data.getLast? = some '/'
       ∧ (resolveRoot "//cfg//").data.dropLast.getLast? ≠ some '/'
       ∧ (∀ c, (resolveRoot "//cfg//").data.head? = some c → c ≠ '/')
       ∧ resolveRoot "//cfg//" =
           (if (stripL "//cfg//".data).isEmpty then "backups/"
            else String.mk (stripL "//cfg//".data) ++ "/backups/")) :=
  ⟨by decide, c8_resolve_root_shape "//cfg//"⟩

/-- C9. Name derivation splits the canonical filename only on the last
dot and appends the two suffixes to the same stem: the concrete example of
the spec holds, every filename yields a pair differing only in the suffix,
and a dot-free tail after the last dot is what gets split off. -/
theorem c9_derive_names_last_dot :
    deriveObjectNames "backup.2025.01.tar" =
      ("backup.2025.01.tar", "backup.2025.01.metadata.json")
    ∧ (∀ f : String, ∃ s : String,
        deriveObjectNames f = (s ++ ".tar", s ++ ".metadata.json"))
    ∧ (∀ a b : List Char, b.contains '.' = false →
        stemOf (a ++ '.' :: b) = a) := by
  refine ⟨by decide, ?_, ?_⟩
  · intro f
    exact ⟨String.mk (stemOf f.data), rfl⟩
  · intro a b hb
    unfold stemOf
    rw [contains_append_cons]
    simp only [if_true]
    have hrev : (a ++ '.' :: b).reverse = b.reverse ++ '.' :: a.reverse := by
      simp
    rw [hrev]
    have hall : ∀ c ∈ b.reverse, (fun c => !(c == '.')) c = true := by
      intro c hc
      have hcb : c ∈ b := List.mem_reverse.mp hc
      have : c ≠ '.' := by
        intro hceq
        subst hceq
        have : b.contains '.' = true := List.elem_eq_true_of_mem hcb
        rw [this] at hb
        exact Bool.true_eq_false.mp hb
      simp [this]
    rw [dropWhile_append_all hall]
    have : ('.' :: a.reverse).dropWhile (fun c => !(c == '.')) = '.' :: a.reverse := by
      rw [List.dropWhile_cons_of_neg]
      simp
    rw [this]
    simp

/-- Concrete evaluation backing `c9_derive_names_last_dot`: the last-dot
split at stem `"db"` and dot-free tail `"gz"`. -/
theorem c9_derive_names_last_dot_witness :
    (['g', 'z'] : List Char).contains '.' = false
    ∧ stemOf (['d', 'b'] ++ '.' :: ['g', 'z']) = ['d', 'b'] :=
  ⟨by decide, c9_derive_names_last_dot.2.2 ['d', 'b'] ['g', 'z'] (by decide)⟩

/-- C7 counterexample: calling a proxied operation on a gateway that was
never launched fails, but with the `AttributeError` from the `None`
client handle, not with the dispatch helper's
`RuntimeError("Gateway not started")`. -/
theorem c7_not_started_counterexample :
    proxiedOp initGateway GwOp.headBucket
      = Except.error (PyError.attributeError "head_bucket")
    ∧ proxiedOp initGateway GwOp.headBucket
      ≠ Except.error (PyError.runtimeError "Gateway not started") :=
  ⟨rfl, fun h => PyError.noConfusion (Except.error.inj h)⟩

/-- C7 amended. Every proxied operation invoked before `launch()` fails —
with the attribute error on the unset client handle; after `launch()` the
same call goes through; and the dedicated not-started `RuntimeError` is
what `_run` raises when entered with no worker loop. -/
theorem c7_before_launch_fails :
    (∀ op : GwOp, proxiedOp initGateway op
      = Except.error (PyError.attributeError (gwOpAttr op)))
    ∧ (∀ op : GwOp, proxiedOp (gwLaunch initGateway) op = Except.ok ())
    ∧ gwRun initGateway () = Except.error (PyError.runtimeError "Gateway not started") :=
  ⟨fun _ => rfl, fun _ => rfl, rfl⟩

/-! ## Theorems about the listing refresh and its cache -/

/-- Per-object loop: with no uncaught (`ClientError`) outcome among the
metadata objects, the loop returns normally and keeps exactly the
successfully parsed records. -/
theorem processContents_ok (objs : List RemoteObject) :
    ∀ acc, (∀ o ∈ objs, endsWithMeta o.key = true → o.fetch ≠ FetchOutcome.clientError) →
      processContents acc objs = .ok (okFold acc objs) := by
  induction objs with
  | nil => intro acc _; rfl
  | cons o rest ih =>
    intro acc h
    have hrest : ∀ x ∈ rest, endsWithMeta x.key = true → x.fetch ≠ FetchOutcome.clientError :=
      fun x hx => h x (by simp [hx])
    by_cases hm : endsWithMeta o.key
    · cases hfetch : o.fetch with
      | ok rec =>
        simp only [processContents, okFold, hm, if_true, hfetch]
        exact ih _ hrest
      | botoCoreError =>
        simp only [processContents, okFold, hm, if_true, hfetch]
        exact ih _ hrest
      | jsonDecodeError =>
        simp only [processContents, okFold, hm, if_true, hfetch]
        exact ih _ hrest
      | clientError =>
        exact absurd hfetch (h o (by simp) hm)
    · simp only [processContents, okFold, hm, if_false]
      exact ih _ hrest

/-- Per-object loop: objects whose fetch fails are invisible — the run
equals the run on the object stream with them filtered out. -/
theorem processContents_skip_failed (objs : List RemoteObject) :
    ∀ acc, (∀ o ∈ objs, endsWithMeta o.key = true → o.fetch ≠ FetchOutcome.clientError) →
      processContents acc objs = processContents acc (objs.filter fetchOk) := by
  induction objs with
  | nil => intro acc _; rfl
  | cons o rest ih =>
    intro acc h
    have hrest : ∀ x ∈ rest, endsWithMeta x.key = true → x.fetch ≠ FetchOutcome.clientError :=
      fun x hx => h x (by simp [hx])
    by_cases hm : endsWithMeta o.key
    · cases hfetch : o.fetch with
      | ok rec =>
        have hkeep : fetchOk o = true := by simp [fetchOk, hfetch]
        simp only [List.filter_cons, hkeep, if_true, processContents, hm, hfetch]
        exact ih _ hrest
      | botoCoreError =>
        have hdrop : fetchOk o = false := by simp [fetchOk, hfetch]
        simp only [List.filter_cons, hdrop, processContents, hm, if_true, hfetch]
        exact ih _ hrest
      | jsonDecodeError =>
        have hdrop : fetchOk o = false := by simp [fetchOk, hfetch]
        simp only [List.filter_cons, hdrop, processContents, hm, if_true, hfetch]
        exact ih _ hrest
      | clientError =>
        exact absurd hfetch (h o (by simp) hm)
    · cases hfetch : o.fetch with
      | ok rec =>
        have hkeep : fetchOk o = true := by simp [fetchOk, hfetch]
        simp only [List.filter_cons, hkeep, if_true, processContents, hm, if_false]
        exact ih _ hrest
      | botoCoreError =>
        have hdrop : fetchOk o = false := by simp [fetchOk, hfetch]
        simp only [List.filter_cons, hdrop, processContents, hm, if_false]
        exact ih _ hrest
      | jsonDecodeError =>
        have hdrop : fetchOk o = false := by simp [fetchOk, hfetch]
        simp only [List.filter_cons, hdrop, processContents, hm, if_false]
        exact ih _ hrest
      | clientError =>
        have hdrop : fetchOk o = false := by simp [fetchOk, hfetch]
        simp only [List.filter_cons, hdrop, processContents, hm, if_false]
        exact ih _ hrest

/-- C6. During a listing refresh, every metadata object whose fetch fails
with a transport error (`BotoCoreError`) or a malformed body
(`json.JSONDecodeError`) is skipped: the loop completes without raising,
returns exactly the accumulation of the successfully parsed objects, and
equals the run with the failing objects removed from the stream. -/
theorem c6_listing_skips_bad_objects (acc : List (String × BackupRec))
    (objs : List RemoteObject)
    (h : ∀ o ∈ objs, endsWithMeta o.key = true → o.fetch ≠ FetchOutcome.clientError) :
    processContents acc objs = .ok (okFold acc objs)
    ∧ processContents acc objs = processContents acc (objs.filter fetchOk) :=
  ⟨processContents_ok objs acc h, processContents_skip_failed objs acc h⟩

/-- Concrete evaluation backing `c6_listing_skips_bad_objects`: a listing
page with one good metadata object, one transport failure, one malformed
body and one non-metadata object keeps exactly the good record. -/
theorem c6_listing_skips_bad_objects_witness :
    processContents []
        [⟨"a.metadata.json", FetchOutcome.ok ⟨"id1", "p"⟩⟩,
         ⟨"b.metadata.json", FetchOutcome.botoCoreError⟩,
         ⟨"c.metadata.json", FetchOutcome.jsonDecodeError⟩,
         ⟨"d.tar", FetchOutcome.ok ⟨"id4", "q"⟩⟩]
      = Except.ok [("id1", ⟨"id1", "p"⟩)]
    ∧ processContents []
        [⟨"a.metadata.json", FetchOutcome.ok ⟨"id1", "p"⟩⟩,
         ⟨"b.metadata.json", FetchOutcome.botoCoreError⟩,
         ⟨"c.metadata.json", FetchOutcome.jsonDecodeError⟩,
         ⟨"d.tar", FetchOutcome.ok ⟨"id4", "q"⟩⟩]
      = Except.ok (okFold []
        [⟨"a.metadata.json", FetchOutcome.ok ⟨"id1", "p"⟩⟩,
         ⟨"b.metadata.json", FetchOutcome.botoCoreError⟩,
         ⟨"c.metadata.json", FetchOutcome.jsonDecodeError⟩,
         ⟨"d.tar", FetchOutcome.ok ⟨"id4", "q"⟩⟩]) :=
  ⟨rfl,
   (c6_listing_skips_bad_objects []
      [⟨"a.metadata.json", FetchOutcome.ok ⟨"id1", "p"⟩⟩,
       ⟨"b.metadata.json", FetchOutcome.botoCoreError⟩,
       ⟨"c.metadata.json", FetchOutcome.jsonDecodeError⟩,
       ⟨"d.tar", FetchOutcome.ok ⟨"id4", "q"⟩⟩] (by decide)).1⟩

/-- C3 counterexample: in a state whose cache expiry has *not* passed
(listing cached, `validUntil = 100`, both calls at instant 50), two
consecutive `list_all` calls issue zero remote listing calls, not exactly
one; and with `drop_cache` between the two calls the total is one remote
call, not two. -/
theorem c3_fresh_cache_counterexample :
    (listAll [PageResult.ok ⟨[], false⟩] 50 ⟨[("id", ⟨"id", "p"⟩)], 100⟩).2.2
      + (listAll [PageResult.ok ⟨[], false⟩] 50
          ((listAll [PageResult.ok ⟨[], false⟩] 50 ⟨[("id", ⟨"id", "p"⟩)], 100⟩).2.1)).2.2
      = 0
    ∧ (listAll [PageResult.ok ⟨[], false⟩] 50 ⟨[("id", ⟨"id", "p"⟩)], 100⟩).2.2
      + (listAll [PageResult.ok ⟨[], false⟩] 60
          (dropCache
            ((listAll [PageResult.ok ⟨[], false⟩] 50 ⟨[("id", ⟨"id", "p"⟩)], 100⟩).2.1))).2.2
      = 1 :=
  ⟨rfl, rfl⟩

/-- C3 amended. Starting instead from a state whose cache expiry *has*
passed, with the remote listing answering with a single page, two
consecutive `list_all` calls inside the freshness window issue exactly
one remote listing call in total, the second call returns the cached
mapping unchanged and leaves the state unchanged, and a `drop_cache`
between the two calls makes the second call issue a second remote
listing call. -/
theorem c3_cache_window (page : ListPage) (st : AgentCacheState) (now1 now2 : Nat)
    (hexp : st.validUntil < now1)
    (ht : page.isTruncated = false)
    (hok : ∀ o ∈ page.contents, endsWithMeta o.key = true → o.fetch ≠ FetchOutcome.clientError)
    (hw : now2 ≤ now1 + LISTING_CACHE_SECONDS)
    (h0 : 0 < now2) :
    (listAll [PageResult.ok page] now1 st).2.2 = 1
    ∧ (listAll [PageResult.ok page] now2 ((listAll [PageResult.ok page] now1 st).2.1)).2.2 = 0
    ∧ (listAll [PageResult.ok page] now2 ((listAll [PageResult.ok page] now1 st).2.1)).1
        = .ok ((listAll [PageResult.ok page] now1 st).2.1).listing
    ∧ (listAll [PageResult.ok page] now2 ((listAll [PageResult.ok page] now1 st).2.1)).2.1
        = (listAll [PageResult.ok page] now1 st).2.1
    ∧ (listAll [PageResult.ok page] now2
        (dropCache ((listAll [PageResult.ok page] now1 st).2.1))).2.2 = 1 := by
  have hm := processContents_ok page.contents [] hok
  have hfp : fetchPages [] 0 [PageResult.ok page]
      = (.ok (okFold [] page.contents), 1) := by
    simp only [fetchPages, hm, ht, if_false]
    simp
  have h1 : listAll [PageResult.ok page] now1 st
      = (.ok (okFold [] page.contents),
         ⟨okFold [] page.contents, now1 + LISTING_CACHE_SECONDS⟩, 1) := by
    unfold listAll
    rw [if_neg (by omega), hfp]
  have h2 : listAll [PageResult.ok page] now2
      ((listAll [PageResult.ok page] now1 st).2.1)
      = (.ok (okFold [] page.contents),
         ⟨okFold [] page.contents, now1 + LISTING_CACHE_SECONDS⟩, 0) := by
    rw [h1]
    unfold listAll
    rw [if_pos (by exact hw)]
  have h3 : listAll [PageResult.ok page] now2
      (dropCache ((listAll [PageResult.ok page] now1 st).2.1))
      = (.ok (okFold [] page.contents),
         ⟨okFold [] page.contents, now2 + LISTING_CACHE_SECONDS⟩, 1) := by
    rw [h1]
    have hvu : (dropCache (⟨okFold [] page.contents,
        now1 + LISTING_CACHE_SECONDS⟩ : AgentCacheState)).validUntil = 0 := rfl
    unfold listAll
    rw [hvu, if_neg (by omega), hfp]
  refine ⟨?_, ?_, ?_, ?_, ?_⟩
  · rw [h1]
  · rw [h2]
  · rw [h2, h1]
  · rw [h2, h1]
  · rw [h3]

/-- Concrete evaluation backing `c3_cache_window`: first call at instant
1 fetches once, second call at instant 2 is served from cache. -/
theorem c3_cache_window_witness :
    (0 < 1 ∧ 2 ≤ 1 + LISTING_CACHE_SECONDS ∧ 0 < 2)
    ∧ ((listAll [PageResult.ok ⟨[⟨"a.metadata.json", FetchOutcome.ok ⟨"id", "p"⟩⟩], false⟩]
          1 ⟨[], 0⟩).2.2 = 1
       ∧ (listAll [PageResult.ok ⟨[⟨"a.metadata.json", FetchOutcome.ok ⟨"id", "p"⟩⟩], false⟩]
            2 ((listAll [PageResult.ok ⟨[⟨"a.metadata.json", FetchOutcome.ok ⟨"id", "p"⟩⟩], false⟩]
                1 ⟨[], 0⟩).2.1)).2.2 = 0) :=
  ⟨⟨by decide, by decide, by decide⟩,
   ⟨(c3_cache_window ⟨[⟨"a.metadata.json", FetchOutcome.ok ⟨"id", "p"⟩⟩], false⟩
       ⟨[], 0⟩ 1 2 (by decide) rfl (by decide) (by decide) (by decide)).1,
    (c3_cache_window ⟨[⟨"a.metadata.json", FetchOutcome.ok ⟨"id", "p"⟩⟩], false⟩
       ⟨[], 0⟩ 1 2 (by decide) rfl (by decide) (by decide) (by decide)).2.1⟩⟩

/-! ## Theorems about the chunked upload -/

/-- Every part `flushPure` slices has length exactly the threshold. -/
theorem flushPure_all_len (t : Nat) :
    ∀ (fuel : Nat) (buf : List Nat), ∀ p ∈ (flushPure t fuel buf).1, p.length = t := by
  intro fuel
  induction fuel with
  | zero => intro buf p hp; simp [flushPure] at hp
  | succ n ih =>
    intro buf p hp
    by_cases hg : t ≤ buf.length
    · simp only [flushPure, hg, if_true] at hp
      rcases List.mem_cons.mp hp with h | h
      · subst h; simp [List.length_take]; omega
      · exact ih (buf.drop t) p h
    · simp only [flushPure, hg, if_false] at hp
      exact absurd hp (List.not_mem_nil p)

/-- Flattening the sliced parts and appending the rest restores the
buffer. -/
theorem flushPure_flatten (t : Nat) :
    ∀ (fuel : Nat) (buf : List Nat),
      (flushPure t fuel buf).1.flatten ++ (flushPure t fuel buf).2 = buf := by
  intro fuel
  induction fuel with
  | zero => intro buf; simp [flushPure]
  | succ n ih =>
    intro buf
    by_cases hg : t ≤ buf.length
    · simp only [flushPure, hg, if_true, List.flatten_cons, List.append_assoc]
      rw [ih (buf.drop t)]
      exact List.take_append_drop t buf
    · simp [flushPure, hg]

/-- With fuel at least the buffer length, `flushPure` leaves a rest
strictly below the threshold. -/
theorem flushPure_rest_lt (t : Nat) (ht : 0 < t) :
    ∀ (fuel : Nat) (buf : List Nat), buf.length ≤ fuel →
      (flushPure t fuel buf).2.length < t := by
  intro fuel
  induction fuel with
  | zero =>
    intro buf hf
    have : buf.length = 0 := Nat.le_zero.mp hf
    simp [flushPure, this]
    omega
  | succ n ih =>
    intro buf hf
    by_cases hg : t ≤ buf.length
    · simp only [flushPure, hg, if_true]
      exact ih (buf.drop t) (by simp [List.length_drop]; omega)
    · simp only [flushPure, hg, if_false]
      omega

/-- Every part `accumPure` produces has length exactly the threshold. -/
theorem accumPure_all_len (t : Nat) :
    ∀ (cs : List (List Nat)) (buf : List Nat),
      ∀ p ∈ (accumPure t cs buf).1, p.length = t := by
  intro cs
  induction cs with
  | nil => intro buf p hp; simp [accumPure] at hp
  | cons c rest ih =>
    intro buf p hp
    simp only [accumPure] at hp
    rcases List.mem_append.mp hp with h | h
    · exact flushPure_all_len t _ _ p h
    · exact ih _ p h

/-- Flattening the produced parts and appending the final buffer restores
the whole stream. -/
theorem accumPure_flatten (t : Nat) :
    ∀ (cs : List (List Nat)) (buf : List Nat),
      (accumPure t cs buf).1.flatten ++ (accumPure t cs buf).2 = buf ++ cs.flatten := by
  intro cs
  induction cs with
  | nil => intro buf; simp [accumPure]
  | cons c rest ih =>
    intro buf
    simp only [accumPure, List.flatten_cons, List.flatten_append, List.append_assoc]
    rw [ih ((flushPure t (buf ++ c).length (buf ++ c)).2)]
    rw [← List.append_assoc]
    rw [flushPure_flatten t (buf ++ c).length (buf ++ c)]
    simp

/-- The final buffer of `accumPure` stays strictly below the threshold. -/
theorem accumPure_rest_lt (t : Nat) (ht : 0 < t) :
    ∀ (cs : List (List Nat)) (buf : List Nat), buf.length < t →
      (accumPure t cs buf).2.length < t := by
  intro cs
  induction cs with
  | nil => intro buf h; simpa [accumPure] using h
  | cons c rest ih =>
    intro buf h
    simp only [accumPure]
    exact ih _ (flushPure_rest_lt t ht _ _ (le_refl _))

/-- Numbering pairs distributes over part-list concatenation. -/
theorem tagParts_append (gw : GwBehavior) :
    ∀ (ps qs : List (List Nat)) (s : Nat),
      tagParts gw s (ps ++ qs) = tagParts gw s ps ++ tagParts gw (s + ps.length) qs := by
  intro ps
  induction ps with
  | nil => intro qs s; simp [tagParts]
  | cons p rest ih =>
    intro qs s
    simp only [List.cons_append, tagParts, List.length_cons, List.append_eq]
    rw [ih qs (s + 1), show s + 1 + rest.length = s + (rest.length + 1) from by omega]

/-- Upload events distribute over part-list concatenation. -/
theorem partEvs_append (gw : GwBehavior) (b k : String) :
    ∀ (ps qs : List (List Nat)) (s : Nat),
      partEvs gw b k s (ps ++ qs) = partEvs gw b k s ps ++ partEvs gw b k (s + ps.length) qs := by
  intro ps
  induction ps with
  | nil => intro qs s; simp [partEvs]
  | cons p rest ih =>
    intro qs s
    simp only [List.cons_append, partEvs, List.length_cons, List.append_eq]
    rw [ih qs (s + 1), show s + 1 + rest.length = s + (rest.length + 1) from by omega]

/-- The bodies of a block of upload events are the parts themselves. -/
theorem partBodiesOf_partEvs (gw : GwBehavior) (b k : String) :
    ∀ (ps : List (List Nat)) (s : Nat), partBodiesOf (partEvs gw b k s ps) = ps := by
  intro ps
  induction ps with
  | nil => intro s; rfl
  | cons p rest ih =>
    intro s
    have h2 := ih (s + 1)
    simp only [partBodiesOf] at h2 ⊢
    simp only [partEvs, List.filterMap_cons]
    rw [h2]

/-- The part numbers of a block of upload events count up from the start
value with no gaps. -/
theorem partNumbersOf_partEvs (gw : GwBehavior) (b k : String) :
    ∀ (ps : List (List Nat)) (s : Nat),
      partNumbersOf (partEvs gw b k s ps) = List.range' s ps.length := by
  intro ps
  induction ps with
  | nil => intro s; rfl
  | cons p rest ih =>
    intro s
    have h2 := ih (s + 1)
    simp only [partNumbersOf] at h2 ⊢
    simp only [partEvs, List.filterMap_cons, List.length_cons]
    rw [h2]
    rfl

/-- Membership in a block of upload events. -/
theorem mem_partEvs (gw : GwBehavior) (b k : String) :
    ∀ (ps : List (List Nat)) (s : Nat), ∀ e ∈ partEvs gw b k s ps,
      ∃ i body, e = GwEvent.uploadPart b k i gw.uploadId body := by
  intro ps
  induction ps with
  | nil => intro s e he; simp [partEvs] at he
  | cons p rest ih =>
    intro s e he
    rcases List.mem_cons.mp he with h | h
    · exact ⟨s, p, h⟩
    · exact ih (s + 1) e h

/-- A block of upload events holds no create call. -/
theorem filter_isCreate_partEvs (gw : GwBehavior) (b k : String)
    (ps : List (List Nat)) (s : Nat) : (partEvs gw b k s ps).filter isCreateEv = [] := by
  refine List.filter_eq_nil_iff.mpr ?_
  intro e he
  obtain ⟨i, body, rfl⟩ := mem_partEvs gw b k ps s e he
  simp [isCreateEv]

/-- A block of upload events holds no abort call. -/
theorem filter_isAbort_partEvs (gw : GwBehavior) (b k : String)
    (ps : List (List Nat)) (s : Nat) : (partEvs gw b k s ps).filter isAbortEv = [] := by
  refine List.filter_eq_nil_iff.mpr ?_
  intro e he
  obtain ⟨i, body, rfl⟩ := mem_partEvs gw b k ps s e he
  simp [isAbortEv]

/-- A block of upload events holds no put call. -/
theorem filter_isPutAt_partEvs (gw : GwBehavior) (b k key : String)
    (ps : List (List Nat)) (s : Nat) : (partEvs gw b k s ps).filter (isPutAt key) = [] := by
  refine List.filter_eq_nil_iff.mpr ?_
  intro e he
  obtain ⟨i, body, rfl⟩ := mem_partEvs gw b k ps s e he
  simp [isPutAt]

/-- A block of upload events holds no complete call. -/
theorem completePartsOf_partEvs (gw : GwBehavior) (b k : String)
    (ps : List (List Nat)) (s : Nat) : completePartsOf (partEvs gw b k s ps) = [] := by
  induction ps generalizing s with
  | nil => rfl
  | cons p rest ih =>
    simp only [partEvs, completePartsOf, List.filterMap_cons]
    exact ih (s + 1)

/-- Characterization of a `flushFullParts` run that raises nothing: its
effect on the state is exactly what `flushPure` predicts — the remaining
buffer, the advanced counter, the recorded pairs, the appended events. -/
theorem flush_none_char (gw : GwBehavior) (b k : String) (t : Nat) :
    ∀ (fuel : Nat) (buf : List Nat) (seq : Nat) (comp : List (Nat × String))
      (ev : List GwEvent) (st : MpState),
      flushFullParts gw b k t fuel buf seq comp ev = (st, none) →
      st.buf = (flushPure t fuel buf).2
      ∧ st.seq = seq + (flushPure t fuel buf).1.length
      ∧ st.completed = comp ++ tagParts gw seq (flushPure t fuel buf).1
      ∧ st.events = ev ++ partEvs gw b k seq (flushPure t fuel buf).1 := by
  intro fuel
  induction fuel with
  | zero =>
    intro buf seq comp ev st h
    simp only [flushFullParts] at h
    injection h with h1 _
    subst h1
    simp [flushPure, tagParts, partEvs]
  | succ n ih =>
    intro buf seq comp ev st h
    by_cases hg : t ≤ buf.length
    · by_cases hpf : gw.partFails seq = true
      · simp only [flushFullParts, hg, if_true, hpf] at h
        injection h with _ h2
        exact absurd h2 (by simp)
      · simp only [flushFullParts, hg, if_true, if_neg hpf] at h
        obtain ⟨hb, hs, hc, he⟩ := ih (buf.drop t) (seq + 1)
          (comp ++ [(seq, gw.etag seq (buf.take t))])
          (ev ++ [GwEvent.uploadPart b k seq gw.uploadId (buf.take t)]) st h
        refine ⟨?_, ?_, ?_, ?_⟩
        · rw [hb]; simp only [flushPure, hg, if_true]
        · rw [hs]; simp only [flushPure, hg, if_true, List.length_cons]; omega
        · rw [hc]; simp only [flushPure, hg, if_true, tagParts, List.append_assoc]
          rfl
        · rw [he]; simp only [flushPure, hg, if_true, partEvs, List.append_assoc]
          rfl
    · simp only [flushFullParts, hg, if_false] at h
      injection h with h1 _
      subst h1
      simp [flushPure, hg, tagParts, partEvs]

/-- Characterization of a `flushFullParts` run that raises: the error is
the `BotoCoreError` of the failing `upload_part`, and the appended events
are a block of upload calls of exactly-threshold parts (the failing call
included). -/
theorem flush_some (gw : GwBehavior) (b k : String) (t : Nat) :
    ∀ (fuel : Nat) (buf : List Nat) (seq : Nat) (comp : List (Nat × String))
      (ev : List GwEvent) (st : MpState) (e : PyError),
      flushFullParts gw b k t fuel buf seq comp ev = (st, some e) →
      e = .botoCoreError
      ∧ ∃ ps : List (List Nat), (∀ p ∈ ps, p.length = t)
          ∧ st.events = ev ++ partEvs gw b k seq ps := by
  intro fuel
  induction fuel with
  | zero =>
    intro buf seq comp ev st e h
    simp only [flushFullParts] at h
    injection h with _ h2
    exact absurd h2 (by simp)
  | succ n ih =>
    intro buf seq comp ev st e h
    by_cases hg : t ≤ buf.length
    · by_cases hpf : gw.partFails seq = true
      · simp only [flushFullParts, hg, if_true, hpf] at h
        injection h with h1 h2
        subst h1
        refine ⟨by injection h2 with h3; exact h3.symm, [buf.take t], ?_, ?_⟩
        · intro p hp
          rcases List.mem_singleton.mp hp with rfl
          simp [List.length_take]; omega
        · simp [partEvs]
      · simp only [flushFullParts, hg, if_true, if_neg hpf] at h
        obtain ⟨he, ps, hlen, hev⟩ := ih (buf.drop t) (seq + 1)
          (comp ++ [(seq, gw.etag seq (buf.take t))])
          (ev ++ [GwEvent.uploadPart b k seq gw.uploadId (buf.take t)]) st e h
        refine ⟨he, buf.take t :: ps, ?_, ?_⟩
        · intro p hp
          rcases List.mem_cons.mp hp with rfl | hp2
          · simp [List.length_take]; omega
          · exact hlen p hp2
        · rw [hev]
          simp [partEvs, List.append_assoc]
    · simp only [flushFullParts, hg, if_false] at h
      injection h with _ h2
      exact absurd h2 (by simp)

/-- Characterization of a `chunkLoop` run that raises nothing, in terms
of `accumPure`. -/
theorem chunkLoop_none_char (gw : GwBehavior) (b k : String) (t : Nat) :
    ∀ (cs : List (List Nat)) (buf : List Nat) (seq : Nat) (comp : List (Nat × String))
      (ev : List GwEvent) (st : MpState),
      chunkLoop gw b k t cs buf seq comp ev = (st, none) →
      st.buf = (accumPure t cs buf).2
      ∧ st.seq = seq + (accumPure t cs buf).1.length
      ∧ st.completed = comp ++ tagParts gw seq (accumPure t cs buf).1
      ∧ st.events = ev ++ partEvs gw b k seq (accumPure t cs buf).1 := by
  intro cs
  induction cs with
  | nil =>
    intro buf seq comp ev st h
    simp only [chunkLoop] at h
    injection h with h1 _
    subst h1
    simp [accumPure, tagParts, partEvs]
  | cons c rest ih =>
    intro buf seq comp ev st h
    simp only [chunkLoop] at h
    rcases hf : flushFullParts gw b k t ((buf ++ c).length) (buf ++ c) seq comp ev
      with ⟨st1, r1⟩
    rw [hf] at h
    cases r1 with
    | some e =>
      injection h with _ h2
      exact absurd h2 (by simp)
    | none =>
      obtain ⟨hb1, hs1, hc1, he1⟩ := flush_none_char gw b k t _ _ _ _ _ _ hf
      obtain ⟨hb, hs, hc, he⟩ := ih st1.buf st1.seq st1.completed st1.events st h
      have hps : (accumPure t (c :: rest) buf).1
          = (flushPure t ((buf ++ c).length) (buf ++ c)).1
            ++ (accumPure t rest (flushPure t ((buf ++ c).length) (buf ++ c)).2).1 := rfl
      have hrest : (accumPure t (c :: rest) buf).2
          = (accumPure t rest (flushPure t ((buf ++ c).length) (buf ++ c)).2).2 := rfl
      refine ⟨?_, ?_, ?_, ?_⟩
      · rw [hb, hb1, hrest]
      · rw [hs, hb1, hs1, hps]
        simp only [List.length_append]
        omega
      · rw [hc, hc1, hps, hb1, hs1, tagParts_append, List.append_assoc]
      · rw [he, he1, hps, hb1, hs1, partEvs_append, List.append_assoc]

/-- Characterization of a `chunkLoop` run that raises: the error is a
`BotoCoreError` and the appended events are one block of upload calls of
exactly-threshold parts. -/
theorem chunkLoop_some (gw : GwBehavior) (b k : String) (t : Nat) :
    ∀ (cs : List (List Nat)) (buf : List Nat) (seq : Nat) (comp : List (Nat × String))
      (ev : List GwEvent) (st : MpState) (e : PyError),
      chunkLoop gw b k t cs buf seq comp ev = (st, some e) →
      e = .botoCoreError
      ∧ ∃ ps : List (List Nat), (∀ p ∈ ps, p.length = t)
          ∧ st.events = ev ++ partEvs gw b k seq ps := by
  intro cs
  induction cs with
  | nil =>
    intro buf seq comp ev st e h
    simp only [chunkLoop] at h
    injection h with _ h2
    exact absurd h2 (by simp)
  | cons c rest ih =>
    intro buf seq comp ev st e h
    simp only [chunkLoop] at h
    rcases hf : flushFullParts gw b k t ((buf ++ c).length) (buf ++ c) seq comp ev
      with ⟨st1, r1⟩
    rw [hf] at h
    cases r1 with
    | some e1 =>
      injection h with h1 h2
      subst h1
      obtain ⟨he1, ps, hlen, hev⟩ := flush_some gw b k t _ _ _ _ _ _ _ hf
      refine ⟨?_, ps, hlen, hev⟩
      injection h2 with h3
      rw [← h3, he1]
    | none =>
      obtain ⟨hb1, hs1, hc1, he1⟩ := flush_none_char gw b k t _ _ _ _ _ _ hf
      obtain ⟨he, ps, hlen, hev⟩ := ih st1.buf st1.seq st1.completed st1.events st e h
      refine ⟨he, (flushPure t ((buf ++ c).length) (buf ++ c)).1 ++ ps, ?_, ?_⟩
      · intro p hp
        rcases List.mem_append.mp hp with hp1 | hp2
        · exact flushPure_all_len t _ _ p hp1
        · exact hlen p hp2
      · rw [hev, he1, hs1, partEvs_append, List.append_assoc]

/-- Part bodies distribute over trace concatenation. -/
theorem partBodiesOf_append (a b : List GwEvent) :
    partBodiesOf (a ++ b) = partBodiesOf a ++ partBodiesOf b := by
  simp [partBodiesOf, List.filterMap_append]

/-- Part numbers distribute over trace concatenation. -/
theorem partNumbersOf_append (a b : List GwEvent) :
    partNumbersOf (a ++ b) = partNumbersOf a ++ partNumbersOf b := by
  simp [partNumbersOf, List.filterMap_append]

/-- Complete-call part lists distribute over trace concatenation. -/
theorem completePartsOf_append (a b : List GwEvent) :
    completePartsOf (a ++ b) = completePartsOf a ++ completePartsOf b := by
  simp [completePartsOf, List.filterMap_append]

/-- Create-call counts add over trace concatenation. -/
theorem countCreates_append (a b : List GwEvent) :
    countCreates (a ++ b) = countCreates a + countCreates b := by
  simp [countCreates, List.filter_append]

/-- Abort-call counts add over trace concatenation. -/
theorem countAborts_append (a b : List GwEvent) :
    countAborts (a ++ b) = countAborts a + countAborts b := by
  simp [countAborts, List.filter_append]

/-- Put filters distribute over trace concatenation. -/
theorem filter_put_append (key : String) (a b : List GwEvent) :
    (a ++ b).filter (isPutAt key) = a.filter (isPutAt key) ++ b.filter (isPutAt key) := by
  simp [List.filter_append]

/-- Unfolding of the abort handler: the abort call is appended exactly
once and the original error is returned, whether or not the abort itself
fails. -/
theorem abortAndReraise_eq (gw : GwBehavior) (b k : String) (ev : List GwEvent)
    (e : PyError) :
    abortAndReraise gw b k ev e
      = (ev ++ [GwEvent.abortMultipartUpload b k gw.uploadId], some e) := by
  unfold abortAndReraise
  split <;> rfl

/-- Unfolding of the complete call when it succeeds. -/
theorem finishComplete_none (gw : GwBehavior) (b k : String) (ev : List GwEvent)
    (comp : List (Nat × String)) (h : ¬ gw.completeFails = true) :
    finishComplete gw b k ev comp
      = (ev ++ [GwEvent.completeMultipartUpload b k gw.uploadId comp], none) := by
  unfold finishComplete
  rw [if_neg h]

/-- Unfolding of the complete call when it raises: the abort follows, the
`BotoCoreError` propagates. -/
theorem finishComplete_fail (gw : GwBehavior) (b k : String) (ev : List GwEvent)
    (comp : List (Nat × String)) (h : gw.completeFails = true) :
    finishComplete gw b k ev comp
      = (ev ++ [GwEvent.completeMultipartUpload b k gw.uploadId comp,
          GwEvent.abortMultipartUpload b k gw.uploadId], some .botoCoreError) := by
  unfold finishComplete
  rw [if_pos h, abortAndReraise_eq]
  simp

/-- Bodies in `dropLast` of a full block plus at most one final part all
have the threshold length. -/
theorem dropLast_all_of_concat {t : Nat} {ps fin : List (List Nat)}
    (hps : ∀ p ∈ ps, p.length = t) (hfin : fin.length ≤ 1) :
    ∀ p ∈ (ps ++ fin).dropLast, p.length = t := by
  match fin with
  | [] =>
    intro p hp
    simp only [List.append_nil] at hp
    exact hps p (List.dropLast_subset ps hp)
  | [x] =>
    intro p hp
    rw [List.dropLast_concat] at hp
    exact hps p hp
  | x :: y :: rest =>
    simp at hfin

/-- Branch equation: a failed begin call stops the run at once — no
abort, no parts, the `BotoCoreError` propagates. -/
theorem putChunkedRun_createFails (gw : GwBehavior) (b k : String) (t : Nat)
    (chunks : List (List Nat)) (hcf : gw.createFails = true) :
    putChunkedRun gw b k t chunks
      = ([GwEvent.createMultipartUpload b k], some .botoCoreError) := by
  unfold putChunkedRun
  rw [if_pos hcf]

/-- Branch equation: with the begin call succeeding, the run is the loop
followed by the tail code. -/
theorem putChunkedRun_eq_afterLoop (gw : GwBehavior) (b k : String) (t : Nat)
    (chunks : List (List Nat)) (st : MpState) (r : Option PyError)
    (hcf : ¬ gw.createFails = true)
    (hcl : chunkLoop gw b k t chunks [] 1 [] [GwEvent.createMultipartUpload b k] = (st, r)) :
    putChunkedRun gw b k t chunks = afterLoop gw b k st r := by
  unfold putChunkedRun
  rw [if_neg hcf]
  show afterLoop gw b k (chunkLoop gw b k t chunks [] 1 []
    [GwEvent.createMultipartUpload b k]).1 (chunkLoop gw b k t chunks [] 1 []
    [GwEvent.createMultipartUpload b k]).2 = _
  rw [hcl]

/-- Tail equation: a loop error aborts and re-raises. -/
theorem afterLoop_some (gw : GwBehavior) (b k : String) (st : MpState) (e : PyError) :
    afterLoop gw b k st (some e) = abortAndReraise gw b k st.events e := rfl

/-- Tail equation: an empty buffer goes straight to the complete call. -/
theorem afterLoop_none_empty (gw : GwBehavior) (b k : String) (st : MpState)
    (hbe : st.buf.isEmpty = true) :
    afterLoop gw b k st none = finishComplete gw b k st.events st.completed := by
  unfold afterLoop
  rw [if_pos hbe]

/-- Tail equation: a failing final part aborts and re-raises. -/
theorem afterLoop_final_fail (gw : GwBehavior) (b k : String) (st : MpState)
    (hbe : ¬ st.buf.isEmpty = true) (hpf : gw.partFails st.seq = true) :
    afterLoop gw b k st none
      = abortAndReraise gw b k
          (st.events ++ [GwEvent.uploadPart b k st.seq gw.uploadId st.buf]) .botoCoreError := by
  unfold afterLoop
  rw [if_neg hbe, if_pos hpf]

/-- Tail equation: a successful final part goes to the complete call with
its pair recorded. -/
theorem afterLoop_final_ok (gw : GwBehavior) (b k : String) (st : MpState)
    (hbe : ¬ st.buf.isEmpty = true) (hpf : ¬ gw.partFails st.seq = true) :
    afterLoop gw b k st none
      = finishComplete gw b k
          (st.events ++ [GwEvent.uploadPart b k st.seq gw.uploadId st.buf])
          (st.completed ++ [(st.seq, gw.etag st.seq st.buf)]) := by
  unfold afterLoop
  rw [if_neg hbe, if_neg hpf]

/-- Characterization of a successful `_put_chunked` run: the trace is the
begin call, one upload call per part of `chunkedPartsPure` numbered from
1, and one complete call listing the matching `(PartNumber, ETag)`
pairs. -/
theorem putChunkedRun_none_char (gw : GwBehavior) (b k : String) (t : Nat)
    (chunks : List (List Nat)) (evs : List GwEvent)
    (h : putChunkedRun gw b k t chunks = (evs, none)) :
    evs = GwEvent.createMultipartUpload b k
      :: (partEvs gw b k 1 (chunkedPartsPure t chunks)
          ++ [GwEvent.completeMultipartUpload b k gw.uploadId
                (tagParts gw 1 (chunkedPartsPure t chunks))]) := by
  by_cases hcf : gw.createFails = true
  · rw [putChunkedRun_createFails gw b k t chunks hcf] at h
    injection h with _ h2
    exact absurd h2 (by simp)
  · rcases hcl : chunkLoop gw b k t chunks [] 1 [] [GwEvent.createMultipartUpload b k]
      with ⟨st, r⟩
    rw [putChunkedRun_eq_afterLoop gw b k t chunks st r hcf hcl] at h
    cases r with
    | some e =>
      rw [afterLoop_some, abortAndReraise_eq] at h
      injection h with _ h2
      exact absurd h2 (by simp)
    | none =>
      obtain ⟨hb, hs, hc, he⟩ :=
        chunkLoop_none_char gw b k t chunks [] 1 [] [GwEvent.createMultipartUpload b k] st hcl
      by_cases hbe : st.buf.isEmpty = true
      · rw [afterLoop_none_empty gw b k st hbe] at h
        by_cases hcc : gw.completeFails = true
        · rw [finishComplete_fail gw b k _ _ hcc] at h
          injection h with _ h2
          exact absurd h2 (by simp)
        · rw [finishComplete_none gw b k _ _ hcc] at h
          injection h with h1 _
          subst h1
          have hrest : (accumPure t chunks []).2 = [] := by
            rw [← hb]
            exact List.isEmpty_iff.mp hbe
          have hcp : chunkedPartsPure t chunks = (accumPure t chunks []).1 := by
            show (accumPure t chunks []).1
              ++ (if (accumPure t chunks []).2.isEmpty = true then []
                  else [(accumPure t chunks []).2]) = (accumPure t chunks []).1
            rw [hrest]
            simp
          rw [he, hc, hcp]
          simp [List.append_assoc]
      · by_cases hpf : gw.partFails st.seq = true
        · rw [afterLoop_final_fail gw b k st hbe hpf, abortAndReraise_eq] at h
          injection h with _ h2
          exact absurd h2 (by simp)
        · rw [afterLoop_final_ok gw b k st hbe hpf] at h
          by_cases hcc : gw.completeFails = true
          · rw [finishComplete_fail gw b k _ _ hcc] at h
            injection h with _ h2
            exact absurd h2 (by simp)
          · rw [finishComplete_none gw b k _ _ hcc] at h
            injection h with h1 _
            subst h1
            have hrest_ne : (accumPure t chunks []).2 ≠ [] := by
              intro hnil
              exact hbe (by rw [hb, hnil]; rfl)
            have hcp : chunkedPartsPure t chunks
                = (accumPure t chunks []).1 ++ [(accumPure t chunks []).2] := by
              show (accumPure t chunks []).1
                ++ (if (accumPure t chunks []).2.isEmpty = true then []
                    else [(accumPure t chunks []).2])
                = (accumPure t chunks []).1 ++ [(accumPure t chunks []).2]
              rw [if_neg (fun hh => hrest_ne (List.isEmpty_iff.mp hh))]
            rw [he, hc, hs, hb, hcp, partEvs_append, tagParts_append]
            simp [partEvs, tagParts, List.append_assoc]

/-- Shape facts for a chunked-upload trace: the begin call, then a block
of upload calls, then a tail of other calls. -/
theorem trace_facts (gw : GwBehavior) (b k key : String) (ps : List (List Nat))
    (tail : List GwEvent) :
    countCreates (GwEvent.createMultipartUpload b k :: (partEvs gw b k 1 ps ++ tail))
      = 1 + countCreates tail
    ∧ (GwEvent.createMultipartUpload b k
        :: (partEvs gw b k 1 ps ++ tail)).filter (isPutAt key)
      = tail.filter (isPutAt key)
    ∧ partBodiesOf (GwEvent.createMultipartUpload b k :: (partEvs gw b k 1 ps ++ tail))
      = ps ++ partBodiesOf tail
    ∧ countAborts (GwEvent.createMultipartUpload b k :: (partEvs gw b k 1 ps ++ tail))
      = countAborts tail := by
  refine ⟨?_, ?_, ?_, ?_⟩
  · show countCreates ([GwEvent.createMultipartUpload b k] ++ (partEvs gw b k 1 ps ++ tail))
      = 1 + countCreates tail
    rw [countCreates_append, countCreates_append]
    have h1 : countCreates [GwEvent.createMultipartUpload b k] = 1 := rfl
    have h2 : countCreates (partEvs gw b k 1 ps) = 0 := by
      show ((partEvs gw b k 1 ps).filter isCreateEv).length = 0
      rw [filter_isCreate_partEvs]
      rfl
    rw [h1, h2]
    omega
  · show ([GwEvent.createMultipartUpload b k]
        ++ (partEvs gw b k 1 ps ++ tail)).filter (isPutAt key) = tail.filter (isPutAt key)
    rw [filter_put_append, filter_put_append, filter_isPutAt_partEvs]
    simp [isPutAt]
  · show partBodiesOf ([GwEvent.createMultipartUpload b k] ++ (partEvs gw b k 1 ps ++ tail))
      = ps ++ partBodiesOf tail
    rw [partBodiesOf_append, partBodiesOf_append, partBodiesOf_partEvs]
    simp [partBodiesOf]
  · show countAborts ([GwEvent.createMultipartUpload b k] ++ (partEvs gw b k 1 ps ++ tail))
      = countAborts tail
    rw [countAborts_append, countAborts_append]
    have h1 : countAborts [GwEvent.createMultipartUpload b k] = 0 := rfl
    have h2 : countAborts (partEvs gw b k 1 ps) = 0 := by
      show ((partEvs gw b k 1 ps).filter isAbortEv).length = 0
      rw [filter_isAbort_partEvs]
      rfl
    rw [h1, h2]
    omega

/-- Master facts about every `_put_chunked` run, failing or not: exactly
one begin call; no put-object call; every uploaded part except the last
has exactly the threshold length; a successful run aborts nothing; a run
failing after a successful begin aborts exactly once and re-raises the
`BotoCoreError`; a failed begin call aborts nothing and propagates the
`BotoCoreError`. -/
theorem putChunkedRun_master (gw : GwBehavior) (b k key : String) (t : Nat)
    (chunks : List (List Nat)) :
    countCreates (putChunkedRun gw b k t chunks).1 = 1
    ∧ (putChunkedRun gw b k t chunks).1.filter (isPutAt key) = []
    ∧ (∀ p ∈ (partBodiesOf (putChunkedRun gw b k t chunks).1).dropLast, p.length = t)
    ∧ ((putChunkedRun gw b k t chunks).2 = none
        → countAborts (putChunkedRun gw b k t chunks).1 = 0)
    ∧ (∀ e, (putChunkedRun gw b k t chunks).2 = some e → ¬ gw.createFails = true
        → countAborts (putChunkedRun gw b k t chunks).1 = 1 ∧ e = PyError.botoCoreError)
    ∧ (gw.createFails = true
        → countAborts (putChunkedRun gw b k t chunks).1 = 0
          ∧ (putChunkedRun gw b k t chunks).2 = some PyError.botoCoreError) := by
  by_cases hcf : gw.createFails = true
  · rw [putChunkedRun_createFails gw b k t chunks hcf]
    refine ⟨rfl, rfl, ?_, ?_, ?_, fun _ => ⟨rfl, rfl⟩⟩
    · intro p hp
      simp [partBodiesOf] at hp
    · intro hnone
      exact absurd hnone (by simp)
    · intro e _ hcf2
      exact absurd hcf hcf2
  · rcases hcl : chunkLoop gw b k t chunks [] 1 [] [GwEvent.createMultipartUpload b k]
      with ⟨st, r⟩
    have hPC := putChunkedRun_eq_afterLoop gw b k t chunks st r hcf hcl
    cases r with
    | some e0 =>
      obtain ⟨he0, ps, hps, hev⟩ := chunkLoop_some gw b k t chunks [] 1 [] _ st e0 hcl
      have hrun : putChunkedRun gw b k t chunks
          = (GwEvent.createMultipartUpload b k
              :: (partEvs gw b k 1 ps ++ [GwEvent.abortMultipartUpload b k gw.uploadId]),
             some e0) := by
        rw [hPC, afterLoop_some, abortAndReraise_eq, hev]
        simp
      obtain ⟨t1, t2, t3, t4⟩ :=
        trace_facts gw b k key ps [GwEvent.abortMultipartUpload b k gw.uploadId]
      rw [hrun]
      refine ⟨by rw [t1]; rfl, by rw [t2]; rfl, ?_, ?_, ?_, ?_⟩
      · intro p hp
        rw [t3] at hp
        exact dropLast_all_of_concat hps (by simp [partBodiesOf]) p hp
      · intro hnone
        exact absurd hnone (by simp)
      · intro e he2 _
        injection he2 with he3
        exact ⟨by rw [t4]; rfl, by rw [← he3, he0]⟩
      · intro hcf2
        exact absurd hcf2 hcf
    | none =>
      obtain ⟨hb, hs, hcmp, he⟩ :=
        chunkLoop_none_char gw b k t chunks [] 1 [] [GwEvent.createMultipartUpload b k] st hcl
      have hps : ∀ p ∈ (accumPure t chunks []).1, p.length = t := accumPure_all_len t chunks []
      by_cases hbe : st.buf.isEmpty = true
      · by_cases hcc : gw.completeFails = true
        · have hrun : putChunkedRun gw b k t chunks
              = (GwEvent.createMultipartUpload b k
                  :: (partEvs gw b k 1 (accumPure t chunks []).1
                      ++ [GwEvent.completeMultipartUpload b k gw.uploadId st.completed,
                          GwEvent.abortMultipartUpload b k gw.uploadId]),
                 some PyError.botoCoreError) := by
            rw [hPC, afterLoop_none_empty gw b k st hbe, finishComplete_fail gw b k _ _ hcc, he]
            simp
          obtain ⟨t1, t2, t3, t4⟩ := trace_facts gw b k key (accumPure t chunks []).1
            [GwEvent.completeMultipartUpload b k gw.uploadId st.completed,
             GwEvent.abortMultipartUpload b k gw.uploadId]
          rw [hrun]
          refine ⟨by rw [t1]; rfl, by rw [t2]; rfl, ?_, ?_, ?_, ?_⟩
          · intro p hp
            rw [t3] at hp
            exact dropLast_all_of_concat hps (by simp [partBodiesOf]) p hp
          · intro hnone
            exact absurd hnone (by simp)
          · intro e he2 _
            injection he2 with he3
            exact ⟨by rw [t4]; rfl, he3.symm⟩
          · intro hcf2
            exact absurd hcf2 hcf
        · have hrun : putChunkedRun gw b k t chunks
              = (GwEvent.createMultipartUpload b k
                  :: (partEvs gw b k 1 (accumPure t chunks []).1
                      ++ [GwEvent.completeMultipartUpload b k gw.uploadId st.completed]),
                 none) := by
            rw [hPC, afterLoop_none_empty gw b k st hbe, finishComplete_none gw b k _ _ hcc, he]
            simp
          obtain ⟨t1, t2, t3, t4⟩ := trace_facts gw b k key (accumPure t chunks []).1
            [GwEvent.completeMultipartUpload b k gw.uploadId st.completed]
          rw [hrun]
          refine ⟨by rw [t1]; rfl, by rw [t2]; rfl, ?_, ?_, ?_, ?_⟩
          · intro p hp
            rw [t3] at hp
            exact dropLast_all_of_concat hps (by simp [partBodiesOf]) p hp
          · intro _
            rw [t4]
            rfl
          · intro e he2 _
            exact absurd he2 (by simp)
          · intro hcf2
            exact absurd hcf2 hcf
      · by_cases hpf : gw.partFails st.seq = true
        · have hrun : putChunkedRun gw b k t chunks
              = (GwEvent.createMultipartUpload b k
                  :: (partEvs gw b k 1 (accumPure t chunks []).1
                      ++ [GwEvent.uploadPart b k st.seq gw.uploadId st.buf,
                          GwEvent.abortMultipartUpload b k gw.uploadId]),
                 some PyError.botoCoreError) := by
            rw [hPC, afterLoop_final_fail gw b k st hbe hpf, abortAndReraise_eq, he]
            simp
          obtain ⟨t1, t2, t3, t4⟩ := trace_facts gw b k key (accumPure t chunks []).1
            [GwEvent.uploadPart b k st.seq gw.uploadId st.buf,
             GwEvent.abortMultipartUpload b k gw.uploadId]
          rw [hrun]
          refine ⟨by rw [t1]; rfl, by rw [t2]; rfl, ?_, ?_, ?_, ?_⟩
          · intro p hp
            rw [t3] at hp
            exact dropLast_all_of_concat hps (by simp [partBodiesOf]) p hp
          · intro hnone
            exact absurd hnone (by simp)
          · intro e he2 _
            injection he2 with he3
            exact ⟨by rw [t4]; rfl, he3.symm⟩
          · intro hcf2
            exact absurd hcf2 hcf
        · by_cases hcc : gw.completeFails = true
          · have hrun : putChunkedRun gw b k t chunks
                = (GwEvent.createMultipartUpload b k
                    :: (partEvs gw b k 1 (accumPure t chunks []).1
                        ++ [GwEvent.uploadPart b k st.seq gw.uploadId st.buf,
                            GwEvent.completeMultipartUpload b k gw.uploadId
                              (st.completed ++ [(st.seq, gw.etag st.seq st.buf)]),
                            GwEvent.abortMultipartUpload b k gw.uploadId]),
                   some PyError.botoCoreError) := by
              rw [hPC, afterLoop_final_ok gw b k st hbe hpf,
                finishComplete_fail gw b k _ _ hcc, he]
              simp
            obtain ⟨t1, t2, t3, t4⟩ := trace_facts gw b k key (accumPure t chunks []).1
              [GwEvent.uploadPart b k st.seq gw.uploadId st.buf,
               GwEvent.completeMultipartUpload b k gw.uploadId
                 (st.completed ++ [(st.seq, gw.etag st.seq st.buf)]),
               GwEvent.abortMultipartUpload b k gw.uploadId]
            rw [hrun]
            refine ⟨by rw [t1]; rfl, by rw [t2]; rfl, ?_, ?_, ?_, ?_⟩
            · intro p hp
              rw [t3] at hp
              exact dropLast_all_of_concat hps (by simp [partBodiesOf]) p hp
            · intro hnone
              exact absurd hnone (by simp)
            · intro e he2 _
              injection he2 with he3
              exact ⟨by rw [t4]; rfl, he3.symm⟩
            · intro hcf2
              exact absurd hcf2 hcf
          · have hrun : putChunkedRun gw b k t chunks
                = (GwEvent.createMultipartUpload b k
                    :: (partEvs gw b k 1 (accumPure t chunks []).1
                        ++ [GwEvent.uploadPart b k st.seq gw.uploadId st.buf,
                            GwEvent.completeMultipartUpload b k gw.uploadId
                              (st.completed ++ [(st.seq, gw.etag st.seq st.buf)])]),
                   none) := by
              rw [hPC, afterLoop_final_ok gw b k st hbe hpf,
                finishComplete_none gw b k _ _ hcc, he]
              simp
            obtain ⟨t1, t2, t3, t4⟩ := trace_facts gw b k key (accumPure t chunks []).1
              [GwEvent.uploadPart b k st.seq gw.uploadId st.buf,
               GwEvent.completeMultipartUpload b k gw.uploadId
                 (st.completed ++ [(st.seq, gw.etag st.seq st.buf)])]
            rw [hrun]
            refine ⟨by rw [t1]; rfl, by rw [t2]; rfl, ?_, ?_, ?_, ?_⟩
            · intro p hp
              rw [t3] at hp
              exact dropLast_all_of_concat hps (by simp [partBodiesOf]) p hp
            · intro _
              rw [t4]
              rfl
            · intro e he2 _
              exact absurd he2 (by simp)
            · intro hcf2
              exact absurd hcf2 hcf

/-- Flattened length of a list of equal-length parts. -/
theorem flatten_length_all {t : Nat} :
    ∀ ps : List (List Nat), (∀ p ∈ ps, p.length = t) → ps.flatten.length = ps.length * t := by
  intro ps
  induction ps with
  | nil => intro _; simp
  | cons p rest ih =>
    intro h
    have hp : p.length = t := h p (by simp)
    have hr := ih (fun q hq => h q (by simp [hq]))
    simp only [List.flatten_cons, List.length_append, List.length_cons, hp, hr]
    ring

/-- Lengths of a list of equal-length parts. -/
theorem map_length_all {t : Nat} :
    ∀ ps : List (List Nat), (∀ p ∈ ps, p.length = t) →
      ps.map List.length = List.replicate ps.length t := by
  intro ps
  induction ps with
  | nil => intro _; rfl
  | cons p rest ih =>
    intro h
    simp only [List.map_cons, List.length_cons, List.replicate_succ]
    rw [h p (by simp), ih (fun q hq => h q (by simp [hq]))]

/-- Part numbers recorded in the completed-parts pairs count up from the
start value. -/
theorem tagParts_map_fst (gw : GwBehavior) :
    ∀ (ps : List (List Nat)) (s : Nat),
      (tagParts gw s ps).map Prod.fst = List.range' s ps.length := by
  intro ps
  induction ps with
  | nil => intro s; rfl
  | cons p rest ih =>
    intro s
    simp only [tagParts, List.map_cons, List.length_cons]
    rw [ih (s + 1)]
    rfl

/-- Structure of the part-body list of a successful chunked upload: no
part is empty, the parts reassemble the stream, and a stream length the
threshold divides yields only exactly-threshold parts. -/
theorem chunkedPartsPure_props (t : Nat) (chunks : List (List Nat)) (ht : 0 < t) :
    (∀ p ∈ chunkedPartsPure t chunks, p ≠ [])
    ∧ (chunkedPartsPure t chunks).flatten = chunks.flatten
    ∧ (t ∣ chunks.flatten.length → ∀ p ∈ chunkedPartsPure t chunks, p.length = t) := by
  have hps := accumPure_all_len t chunks []
  have hfl := accumPure_flatten t chunks []
  have hlt := accumPure_rest_lt t ht chunks [] (by simpa using ht)
  have hcp : chunkedPartsPure t chunks
      = (accumPure t chunks []).1
        ++ (if (accumPure t chunks []).2.isEmpty = true then []
            else [(accumPure t chunks []).2]) := rfl
  by_cases hre : (accumPure t chunks []).2.isEmpty = true
  · have hrnil : (accumPure t chunks []).2 = [] := List.isEmpty_iff.mp hre
    rw [hcp, if_pos hre, List.append_nil]
    refine ⟨?_, ?_, fun _ => hps⟩
    · intro p hp hnil
      have := hps p hp
      rw [hnil] at this
      simp at this
      omega
    · rw [hrnil, List.append_nil] at hfl
      simpa using hfl
  · have hrne : (accumPure t chunks []).2 ≠ [] := fun hnil => hre (by rw [hnil]; rfl)
    rw [hcp, if_neg hre]
    refine ⟨?_, ?_, ?_⟩
    · intro p hp hnil
      rcases List.mem_append.mp hp with h1 | h1
      · have := hps p h1
        rw [hnil] at this
        simp at this
        omega
      · rcases List.mem_singleton.mp h1 with rfl
        exact hrne hnil
    · rw [List.flatten_append]
      simpa using hfl
    · intro hdvd
      have hlen : (accumPure t chunks []).1.flatten.length
          = (accumPure t chunks []).1.length * t := flatten_length_all _ hps
      have htot : (accumPure t chunks []).1.flatten.length
          + (accumPure t chunks []).2.length = chunks.flatten.length := by
        have := congrArg List.length hfl
        simpa [List.length_append] using this
      have hd2 : t ∣ (accumPure t chunks []).2.length := by
        have h1 : t ∣ (accumPure t chunks []).1.length * t := dvd_mul_left t _
        have h2 : (accumPure t chunks []).2.length
            = chunks.flatten.length - (accumPure t chunks []).1.length * t := by omega
        rw [h2]
        exact Nat.dvd_sub' hdvd h1
      have h0 : (accumPure t chunks []).2.length = 0 := Nat.eq_zero_of_dvd_of_lt hd2 hlt
      exact absurd (List.length_eq_zero.mp h0) hrne

/-- Part bodies of a successful chunked-upload trace. -/
theorem partBodiesOf_success (gw : GwBehavior) (b k : String) (t : Nat)
    (chunks : List (List Nat))
    (hpair : putChunkedRun gw b k t chunks = ((putChunkedRun gw b k t chunks).1, none)) :
    partBodiesOf (putChunkedRun gw b k t chunks).1 = chunkedPartsPure t chunks := by
  rw [putChunkedRun_none_char gw b k t chunks _ hpair]
  show partBodiesOf ([GwEvent.createMultipartUpload b k]
    ++ (partEvs gw b k 1 (chunkedPartsPure t chunks)
        ++ [GwEvent.completeMultipartUpload b k gw.uploadId
              (tagParts gw 1 (chunkedPartsPure t chunks))])) = _
  rw [partBodiesOf_append, partBodiesOf_append, partBodiesOf_partEvs]
  simp [partBodiesOf]

/-- Part numbers of a successful chunked-upload trace. -/
theorem partNumbersOf_success (gw : GwBehavior) (b k : String) (t : Nat)
    (chunks : List (List Nat))
    (hpair : putChunkedRun gw b k t chunks = ((putChunkedRun gw b k t chunks).1, none)) :
    partNumbersOf (putChunkedRun gw b k t chunks).1
      = List.range' 1 (chunkedPartsPure t chunks).length := by
  rw [putChunkedRun_none_char gw b k t chunks _ hpair]
  show partNumbersOf ([GwEvent.createMultipartUpload b k]
    ++ (partEvs gw b k 1 (chunkedPartsPure t chunks)
        ++ [GwEvent.completeMultipartUpload b k gw.uploadId
              (tagParts gw 1 (chunkedPartsPure t chunks))])) = _
  rw [partNumbersOf_append, partNumbersOf_append, partNumbersOf_partEvs]
  simp [partNumbersOf]

/-- Complete-call part lists of a successful chunked-upload trace. -/
theorem completePartsOf_success (gw : GwBehavior) (b k : String) (t : Nat)
    (chunks : List (List Nat))
    (hpair : putChunkedRun gw b k t chunks = ((putChunkedRun gw b k t chunks).1, none)) :
    completePartsOf (putChunkedRun gw b k t chunks).1
      = [tagParts gw 1 (chunkedPartsPure t chunks)] := by
  rw [putChunkedRun_none_char gw b k t chunks _ hpair]
  show completePartsOf ([GwEvent.createMultipartUpload b k]
    ++ (partEvs gw b k 1 (chunkedPartsPure t chunks)
        ++ [GwEvent.completeMultipartUpload b k gw.uploadId
              (tagParts gw 1 (chunkedPartsPure t chunks))])) = _
  rw [completePartsOf_append, completePartsOf_append, completePartsOf_partEvs]
  rfl

/-- Pair form of a successful run. -/
theorem putChunkedRun_pair_of_none (gw : GwBehavior) (b k : String) (t : Nat)
    (chunks : List (List Nat)) (h : (putChunkedRun gw b k t chunks).2 = none) :
    putChunkedRun gw b k t chunks = ((putChunkedRun gw b k t chunks).1, none) := by
  rw [← h]

/-- C10. Whenever the chunked upload completes successfully, the uploaded
parts carry consecutive part numbers starting at 1, no part is empty, the
concatenation of the part bodies equals the concatenation of the stream's
chunks whatever the incoming chunk boundaries were, and a total length
the threshold divides exactly produces no extra final part (every part
has the threshold length). -/
theorem c10_chunked_reassembly (gw : GwBehavior) (b k : String) (t : Nat)
    (chunks : List (List Nat)) (ht : 0 < t)
    (h : (putChunkedRun gw b k t chunks).2 = none) :
    partNumbersOf (putChunkedRun gw b k t chunks).1
      = List.range' 1 (partBodiesOf (putChunkedRun gw b k t chunks).1).length
    ∧ (∀ p ∈ partBodiesOf (putChunkedRun gw b k t chunks).1, p ≠ [])
    ∧ (partBodiesOf (putChunkedRun gw b k t chunks).1).flatten = chunks.flatten
    ∧ (t ∣ chunks.flatten.length
        → ∀ p ∈ partBodiesOf (putChunkedRun gw b k t chunks).1, p.length = t) := by
  have hpair := putChunkedRun_pair_of_none gw b k t chunks h
  have hpb := partBodiesOf_success gw b k t chunks hpair
  have hpn := partNumbersOf_success gw b k t chunks hpair
  obtain ⟨hne, hfl, hdvd⟩ := chunkedPartsPure_props t chunks ht
  refine ⟨?_, ?_, ?_, ?_⟩
  · rw [hpb, hpn]
  · rw [hpb]; exact hne
  · rw [hpb]; exact hfl
  · rw [hpb]; exact hdvd

/-- Concrete evaluation backing `c10_chunked_reassembly`: threshold 3,
stream pieces of sizes 4 and 3, giving parts `[1,2,3]`, `[4,5,6]`,
`[7]`. -/
theorem c10_chunked_reassembly_witness :
    ((0 : Nat) < 3
     ∧ (putChunkedRun ⟨"uid", false, fun _ => false, fun _ _ => "E", false, false,
          false, false⟩ "b" "k" 3 [[1, 2, 3, 4], [5, 6, 7]]).2 = none)
    ∧ (partNumbersOf (putChunkedRun ⟨"uid", false, fun _ => false, fun _ _ => "E", false,
          false, false, false⟩ "b" "k" 3 [[1, 2, 3, 4], [5, 6, 7]]).1
        = List.range' 1 (partBodiesOf (putChunkedRun ⟨"uid", false, fun _ => false,
            fun _ _ => "E", false, false, false, false⟩
            "b" "k" 3 [[1, 2, 3, 4], [5, 6, 7]]).1).length
       ∧ (∀ p ∈ partBodiesOf (putChunkedRun ⟨"uid", false, fun _ => false, fun _ _ => "E",
            false, false, false, false⟩ "b" "k" 3 [[1, 2, 3, 4], [5, 6, 7]]).1, p ≠ [])
       ∧ (partBodiesOf (putChunkedRun ⟨"uid", false, fun _ => false, fun _ _ => "E", false,
            false, false, false⟩ "b" "k" 3 [[1, 2, 3, 4], [5, 6, 7]]).1).flatten
          = ([[1, 2, 3, 4], [5, 6, 7]] : List (List Nat)).flatten
       ∧ ((3 : Nat) ∣ ([[1, 2, 3, 4], [5, 6, 7]] : List (List Nat)).flatten.length
          → ∀ p ∈ partBodiesOf (putChunkedRun ⟨"uid", false, fun _ => false, fun _ _ => "E",
              false, false, false, false⟩ "b" "k" 3 [[1, 2, 3, 4], [5, 6, 7]]).1,
              p.length = 3)) :=
  ⟨⟨by decide, rfl⟩,
   c10_chunked_reassembly ⟨"uid", false, fun _ => false, fun _ _ => "E", false, false,
     false, false⟩ "b" "k" 3 [[1, 2, 3, 4], [5, 6, 7]] (by decide) rfl⟩

/-- C5. With threshold 20 and any stream totalling 45 units, a successful
chunked upload uploads exactly two full parts of 20 units and one final
part of 5 units, numbered 1, 2, 3 in that order, and issues exactly one
complete call whose part list carries the three pairs in ascending
part-number order. -/
theorem c5_threshold20_total45 (gw : GwBehavior) (b k : String)
    (chunks : List (List Nat)) (hlen : chunks.flatten.length = 45)
    (h : (putChunkedRun gw b k 20 chunks).2 = none) :
    (partBodiesOf (putChunkedRun gw b k 20 chunks).1).map List.length = [20, 20, 5]
    ∧ partNumbersOf (putChunkedRun gw b k 20 chunks).1 = [1, 2, 3]
    ∧ (completePartsOf (putChunkedRun gw b k 20 chunks).1).length = 1
    ∧ (completePartsOf (putChunkedRun gw b k 20 chunks).1).map (List.map Prod.fst)
        = [[1, 2, 3]] := by
  have hpair := putChunkedRun_pair_of_none gw b k 20 chunks h
  have hpb := partBodiesOf_success gw b k 20 chunks hpair
  have hpn := partNumbersOf_success gw b k 20 chunks hpair
  have hcpl := completePartsOf_success gw b k 20 chunks hpair
  have hps := accumPure_all_len 20 chunks []
  have hfl := accumPure_flatten 20 chunks []
  have hlt := accumPure_rest_lt 20 (by omega) chunks [] (by simp)
  have htot : (accumPure 20 chunks []).1.length * 20
      + (accumPure 20 chunks []).2.length = 45 := by
    have h1 := congrArg List.length hfl
    simp only [List.length_append, List.nil_append] at h1
    rw [flatten_length_all _ hps, hlen] at h1
    exact h1
  have hn : (accumPure 20 chunks []).1.length = 2 := by omega
  have hr : (accumPure 20 chunks []).2.length = 5 := by omega
  have hrne : (accumPure 20 chunks []).2 ≠ [] := by
    intro hnil
    rw [hnil] at hr
    simp at hr
  have hcp : chunkedPartsPure 20 chunks
      = (accumPure 20 chunks []).1 ++ [(accumPure 20 chunks []).2] := by
    show (accumPure 20 chunks []).1
      ++ (if (accumPure 20 chunks []).2.isEmpty = true then []
          else [(accumPure 20 chunks []).2]) = _
    rw [if_neg (fun hh => hrne (List.isEmpty_iff.mp hh))]
  have hmap : (chunkedPartsPure 20 chunks).map List.length = [20, 20, 5] := by
    rw [hcp, List.map_append, map_length_all _ hps, hn]
    simp [hr]
  have hcl : (chunkedPartsPure 20 chunks).length = 3 := by
    have h2 := congrArg List.length hmap
    simpa using h2
  refine ⟨?_, ?_, ?_, ?_⟩
  · rw [hpb]
    exact hmap
  · rw [hpn, hcl]
    decide
  · rw [hcpl]
    rfl
  · rw [hcpl]
    simp only [List.map_cons, List.map_nil]
    rw [tagParts_map_fst gw _ 1, hcl]
    decide

/-- Concrete evaluation backing `c5_threshold20_total45`: one incoming
piece of 45 bytes. -/
theorem c5_threshold20_total45_witness :
    (([List.range 45] : List (List Nat)).flatten.length = 45
     ∧ (putChunkedRun ⟨"uid", false, fun _ => false, fun _ _ => "E", false, false,
          false, false⟩ "b" "k" 20 [List.range 45]).2 = none)
    ∧ ((partBodiesOf (putChunkedRun ⟨"uid", false, fun _ => false, fun _ _ => "E", false,
          false, false, false⟩ "b" "k" 20 [List.range 45]).1).map List.length = [20, 20, 5]
       ∧ partNumbersOf (putChunkedRun ⟨"uid", false, fun _ => false, fun _ _ => "E", false,
          false, false, false⟩ "b" "k" 20 [List.range 45]).1 = [1, 2, 3]
       ∧ (completePartsOf (putChunkedRun ⟨"uid", false, fun _ => false, fun _ _ => "E",
          false, false, false, false⟩ "b" "k" 20 [List.range 45]).1).length = 1
       ∧ (completePartsOf (putChunkedRun ⟨"uid", false, fun _ => false, fun _ _ => "E",
          false, false, false, false⟩
          "b" "k" 20 [List.range 45]).1).map (List.map Prod.fst) = [[1, 2, 3]]) :=
  ⟨⟨by decide, rfl⟩,
   c5_threshold20_total45 ⟨"uid", false, fun _ => false, fun _ _ => "E", false, false,
     false, false⟩ "b" "k" [List.range 45] (by decide) rfl⟩

/-- Appending to the same string keeps unequal-length tails apart. -/
theorem append_ne_of_len (a b c : String) (h : b.data.length ≠ c.data.length) :
    a ++ b ≠ a ++ c := by
  intro he
  apply h
  have h2 := congrArg (fun s => s.data.length) he
  simp only [sdata_append, List.length_append] at h2
  omega

/-- The archive key and the metadata key of one backup never coincide. -/
theorem tarKey_ne_metaKey (root f : String) :
    root ++ (deriveObjectNames f).1 ≠ root ++ (deriveObjectNames f).2 := by
  apply append_ne_of_len
  show (String.mk (stemOf f.data) ++ ".tar").data.length
    ≠ (String.mk (stemOf f.data) ++ ".metadata.json").data.length
  simp only [sdata_append, List.length_append]
  rw [show (".tar" : String).data.length = 4 from rfl,
    show (".metadata.json" : String).data.length = 14 from rfl]
  omega

/-- Events of the metadata write: the one put call appended, whatever the
outcome. -/
theorem metaWrite_fst (gw : GwBehavior) (bucket metaKey : String) (meta : List Nat)
    (evs : List GwEvent) :
    (metaWrite gw bucket metaKey meta evs).1
      = evs ++ [GwEvent.putObject bucket metaKey meta] := by
  unfold metaWrite
  split <;> rfl

/-- Branch equation of the upload: the single-shot path. -/
theorem uploadBackupRun_small (gw : GwBehavior) (bucket root : String)
    (backup : AgentBackupModel) (chunks : List (List Nat))
    (hsz : backup.size < CHUNK_THRESHOLD_BYTES) :
    uploadBackupRun gw bucket root backup chunks
      = (match putSingleRun gw bucket
            (root ++ (deriveObjectNames backup.filename).1) chunks with
         | (evs, some e) => (evs, some (wrapUploadErr e))
         | (evs, none) =>
           metaWrite gw bucket (root ++ (deriveObjectNames backup.filename).2)
             backup.meta evs) := by
  show (match (if backup.size < CHUNK_THRESHOLD_BYTES
      then putSingleRun gw bucket (root ++ (deriveObjectNames backup.filename).1) chunks
      else putChunkedRun gw bucket (root ++ (deriveObjectNames backup.filename).1)
        CHUNK_THRESHOLD_BYTES chunks) with
    | (evs, some e) => (evs, some (wrapUploadErr e))
    | (evs, none) => metaWrite gw bucket (root ++ (deriveObjectNames backup.filename).2)
        backup.meta evs) = _
  rw [if_pos hsz]

/-- Branch equation of the upload: the chunked path. -/
theorem uploadBackupRun_big (gw : GwBehavior) (bucket root : String)
    (backup : AgentBackupModel) (chunks : List (List Nat))
    (hsz : ¬ backup.size < CHUNK_THRESHOLD_BYTES) :
    uploadBackupRun gw bucket root backup chunks
      = (match putChunkedRun gw bucket
            (root ++ (deriveObjectNames backup.filename).1) CHUNK_THRESHOLD_BYTES chunks with
         | (evs, some e) => (evs, some (wrapUploadErr e))
         | (evs, none) =>
           metaWrite gw bucket (root ++ (deriveObjectNames backup.filename).2)
             backup.meta evs) := by
  show (match (if backup.size < CHUNK_THRESHOLD_BYTES
      then putSingleRun gw bucket (root ++ (deriveObjectNames backup.filename).1) chunks
      else putChunkedRun gw bucket (root ++ (deriveObjectNames backup.filename).1)
        CHUNK_THRESHOLD_BYTES chunks) with
    | (evs, some e) => (evs, some (wrapUploadErr e))
    | (evs, none) => metaWrite gw bucket (root ++ (deriveObjectNames backup.filename).2)
        backup.meta evs) = _
  rw [if_neg hsz]

/-- C1. The upload chooses its path by the declared size: strictly below
the threshold, exactly one put-object call carries the fully buffered
body at the archive key and no begin-multipart call is issued; at or
above the threshold, exactly one begin-multipart call is issued, no
put-object call touches the archive key, and every uploaded part except
the last is exactly the threshold long. -/
theorem c1_upload_size_boundary (gw : GwBehavior) (bucket root : String)
    (backup : AgentBackupModel) (chunks : List (List Nat)) :
    countCreates (uploadBackupRun gw bucket root backup chunks).1
      = (if backup.size < CHUNK_THRESHOLD_BYTES then 0 else 1)
    ∧ (uploadBackupRun gw bucket root backup chunks).1.filter
        (isPutAt (root ++ (deriveObjectNames backup.filename).1))
      = (if backup.size < CHUNK_THRESHOLD_BYTES
         then [GwEvent.putObject bucket (root ++ (deriveObjectNames backup.filename).1)
                 chunks.flatten]
         else [])
    ∧ (∀ p ∈ (partBodiesOf (uploadBackupRun gw bucket root backup chunks).1).dropLast,
        p.length = CHUNK_THRESHOLD_BYTES) := by
  have hne : root ++ (deriveObjectNames backup.filename).2
      ≠ root ++ (deriveObjectNames backup.filename).1 :=
    (tarKey_ne_metaKey root backup.filename).symm
  by_cases hsz : backup.size < CHUNK_THRESHOLD_BYTES
  · have hev : (uploadBackupRun gw bucket root backup chunks).1
        = GwEvent.putObject bucket (root ++ (deriveObjectNames backup.filename).1)
            chunks.flatten
          :: (if gw.putArchiveFails = true then []
              else [GwEvent.putObject bucket
                (root ++ (deriveObjectNames backup.filename).2) backup.meta]) := by
      rw [uploadBackupRun_small gw bucket root backup chunks hsz]
      cases hpa : gw.putArchiveFails with
      | true =>
        have hr : putSingleRun gw bucket
            (root ++ (deriveObjectNames backup.filename).1) chunks
            = ([GwEvent.putObject bucket (root ++ (deriveObjectNames backup.filename).1)
                 chunks.flatten], some .botoCoreError) := by
          unfold putSingleRun
          rw [hpa]
          rfl
        rw [hr]
        rfl
      | false =>
        have hr : putSingleRun gw bucket
            (root ++ (deriveObjectNames backup.filename).1) chunks
            = ([GwEvent.putObject bucket (root ++ (deriveObjectNames backup.filename).1)
                 chunks.flatten], none) := by
          unfold putSingleRun
          rw [hpa]
          rfl
        rw [hr]
        show (metaWrite gw bucket (root ++ (deriveObjectNames backup.filename).2)
          backup.meta _).1 = _
        rw [metaWrite_fst]
        rfl
    rw [hev, if_pos hsz, if_pos hsz]
    refine ⟨?_, ?_, ?_⟩
    · cases gw.putArchiveFails <;> rfl
    · cases gw.putArchiveFails with
      | true => simp [isPutAt]
      | false => simp [isPutAt, hne]
    · intro p hp
      by_cases hpa : gw.putArchiveFails = true
      · rw [if_pos hpa] at hp
        exact absurd hp (by simp [partBodiesOf])
      · rw [if_neg hpa] at hp
        exact absurd hp (by simp [partBodiesOf])
  · rcases hpc : putChunkedRun gw bucket (root ++ (deriveObjectNames backup.filename).1)
        CHUNK_THRESHOLD_BYTES chunks with ⟨evs0, r0⟩
    obtain ⟨m1, m2, m3, _, _, _⟩ := putChunkedRun_master gw bucket
      (root ++ (deriveObjectNames backup.filename).1)
      (root ++ (deriveObjectNames backup.filename).1) CHUNK_THRESHOLD_BYTES chunks
    have m1b : countCreates evs0 = 1 := by rw [hpc] at m1; exact m1
    have m2b : evs0.filter (isPutAt (root ++ (deriveObjectNames backup.filename).1)) = [] := by
      rw [hpc] at m2
      exact m2
    have m3b : ∀ p ∈ (partBodiesOf evs0).dropLast, p.length = CHUNK_THRESHOLD_BYTES :=
      fun p hp => m3 p (by rw [hpc]; exact hp)
    rw [if_neg hsz, if_neg hsz]
    cases r0 with
    | some e =>
      have hev : (uploadBackupRun gw bucket root backup chunks).1 = evs0 := by
        simp only [uploadBackupRun_big gw bucket root backup chunks hsz, hpc]
      rw [hev]
      exact ⟨m1b, m2b, m3b⟩
    | none =>
      have hev : (uploadBackupRun gw bucket root backup chunks).1
          = evs0 ++ [GwEvent.putObject bucket
              (root ++ (deriveObjectNames backup.filename).2) backup.meta] := by
        simp only [uploadBackupRun_big gw bucket root backup chunks hsz, hpc, metaWrite_fst]
      rw [hev]
      refine ⟨?_, ?_, ?_⟩
      · rw [countCreates_append, m1b]
        rfl
      · rw [filter_put_append, m2b]
        simp [isPutAt, hne]
      · intro p hp
        rw [partBodiesOf_append] at hp
        have hnil : partBodiesOf [GwEvent.putObject bucket
            (root ++ (deriveObjectNames backup.filename).2) backup.meta] = [] := rfl
        rw [hnil, List.append_nil] at hp
        exact m3b p hp

/-- Concrete evaluation backing `c1_upload_size_boundary`: a small record
takes the single-shot path, a threshold-sized record the chunked path. -/
theorem c1_upload_size_boundary_witness :
    (uploadBackupRun ⟨"uid", false, fun _ => false, fun _ _ => "E", false, false,
        false, false⟩ "b" "r/" ⟨"id", 7, "f.tar", [9]⟩ [[1, 2]]).1
      = [GwEvent.putObject "b" "r/f.tar" [1, 2], GwEvent.putObject "b" "r/f.metadata.json" [9]]
    ∧ countCreates (uploadBackupRun ⟨"uid", false, fun _ => false, fun _ _ => "E", false,
        false, false, false⟩ "b" "r/" ⟨"id", 7, "f.tar", [9]⟩ [[1, 2]]).1
      = (if (7 : Nat) < CHUNK_THRESHOLD_BYTES then 0 else 1) :=
  ⟨by decide,
   (c1_upload_size_boundary ⟨"uid", false, fun _ => false, fun _ _ => "E", false, false,
     false, false⟩ "b" "r/" ⟨"id", 7, "f.tar", [9]⟩ [[1, 2]]).1⟩

/-- C2 counterexample: when the begin-multipart call itself fails, the
code issues *no* abort call — `create_multipart_upload` sits outside the
`try` — and the `BotoCoreError` propagates directly. -/
theorem c2_begin_failure_counterexample :
    (putChunkedRun ⟨"uid", true, fun _ => false, fun _ _ => "E", false, false, false,
        false⟩ "b" "k" 20 [[1]]).2 = some PyError.botoCoreError
    ∧ countAborts (putChunkedRun ⟨"uid", true, fun _ => false, fun _ _ => "E", false,
        false, false, false⟩ "b" "k" 20 [[1]]).1 = 0
    ∧ (putChunkedRun ⟨"uid", true, fun _ => false, fun _ _ => "E", false, false, false,
        false⟩ "b" "k" 20 [[1]]).1 = [GwEvent.createMultipartUpload "b" "k"] :=
  ⟨rfl, rfl, rfl⟩

/-- C2 amended. After a successful begin-multipart call, any failure of a
part upload (or of the completion) triggers exactly one abort call and
the original `BotoCoreError` is re-raised — for every behaviour of the
abort call itself, a failing abort included (`abortFails` is universally
quantified inside `gw`); a successful run aborts nothing.  A failure of
the begin call itself propagates with no abort, as the counterexample
shows. -/
theorem c2_abort_on_failure (gw : GwBehavior) (b k : String) (t : Nat)
    (chunks : List (List Nat)) (hcf : ¬ gw.createFails = true) :
    (∀ e, (putChunkedRun gw b k t chunks).2 = some e
      → countAborts (putChunkedRun gw b k t chunks).1 = 1 ∧ e = PyError.botoCoreError)
    ∧ ((putChunkedRun gw b k t chunks).2 = none
      → countAborts (putChunkedRun gw b k t chunks).1 = 0) :=
  ⟨fun e he => (putChunkedRun_master gw b k k t chunks).2.2.2.2.1 e he hcf,
   (putChunkedRun_master gw b k k t chunks).2.2.2.1⟩

/-- Concrete evaluation backing `c2_abort_on_failure`: the first part
upload fails and the abort itself also fails; exactly one abort call is
issued and the original `BotoCoreError` is re-raised. -/
theorem c2_abort_on_failure_witness :
    ((putChunkedRun ⟨"uid", false, fun _ => true, fun _ _ => "E", false, true, false,
        false⟩ "b" "k" 20 [List.replicate 25 0]).2 = some PyError.botoCoreError)
    ∧ countAborts (putChunkedRun ⟨"uid", false, fun _ => true, fun _ _ => "E", false,
        true, false, false⟩ "b" "k" 20 [List.replicate 25 0]).1 = 1 :=
  ⟨rfl,
   ((c2_abort_on_failure ⟨"uid", false, fun _ => true, fun _ _ => "E", false, true,
       false, false⟩ "b" "k" 20 [List.replicate 25 0] (by decide)).1
     PyError.botoCoreError rfl).1⟩

/-! ## Theorems about the error-translation boundary -/

/-- The upload's `except BotoCoreError` clause never lets a
`BotoCoreError` through. -/
theorem wrapUploadErr_ne_boto (e : PyError) : wrapUploadErr e ≠ PyError.botoCoreError := by
  cases e <;> simp [wrapUploadErr]

/-- Outcome of the metadata write is never a raw `BotoCoreError`. -/
theorem metaWrite_snd_ne (gw : GwBehavior) (bucket metaKey : String) (meta : List Nat)
    (evs : List GwEvent) :
    (metaWrite gw bucket metaKey meta evs).2 ≠ some PyError.botoCoreError := by
  unfold metaWrite
  split <;> intro h <;> simp at h

/-- C4 counterexample: a `ClientError` raised by the proxied `get_object`
during a listing escapes `async_list_backups` unwrapped — it reaches the
caller as the raw `ClientError`, not as the backup-domain error type
annotated with the operation name. -/
theorem c4_unwrapped_client_error_counterexample :
    (asyncListBackups
        [PageResult.ok ⟨[⟨"x.metadata.json", FetchOutcome.clientError⟩], false⟩]
        1 ⟨[], 0⟩).1 = Except.error PyError.clientError
    ∧ (asyncListBackups
        [PageResult.ok ⟨[⟨"x.metadata.json", FetchOutcome.clientError⟩], false⟩]
        1 ⟨[], 0⟩).1
      ≠ Except.error (PyError.backupAgentError "async_list_backups failed") :=
  ⟨rfl, fun h => PyError.noConfusion (Except.error.inj h)⟩

/-- C4 amended. The decorator wraps exactly the `BotoCoreError` class: a
`BotoCoreError` inside `async_list_backups` surfaces as
`BackupAgentError("async_list_backups failed")` and no raw
`BotoCoreError` ever reaches the caller of a decorated operation; the
upload path's inline `except BotoCoreError` likewise never lets a raw
`BotoCoreError` out.  Exceptions of other classes — `ClientError` in
particular — pass through unwrapped, as the counterexample shows. -/
theorem c4_boto_errors_wrapped (env : List PageResult) (now : Nat) (st : AgentCacheState) :
    ((listAll env now st).1 = .error .botoCoreError
      → (asyncListBackups env now st).1
          = .error (.backupAgentError "async_list_backups failed"))
    ∧ (asyncListBackups env now st).1 ≠ .error .botoCoreError
    ∧ (∀ (gw : GwBehavior) (bucket root : String) (backup : AgentBackupModel)
        (chunks : List (List Nat)),
        (uploadBackupRun gw bucket root backup chunks).2 ≠ some PyError.botoCoreError) := by
  refine ⟨?_, ?_, ?_⟩
  · intro h
    show wrapStorageErrors "async_list_backups"
      ((listAll env now st).1.map (fun m => m.map Prod.snd)) = _
    rw [h]
    rfl
  · show wrapStorageErrors "async_list_backups"
      ((listAll env now st).1.map (fun m => m.map Prod.snd)) ≠ _
    rcases hl : (listAll env now st).1 with e | v
    · cases e <;> simp [wrapStorageErrors, Except.map]
    · simp [wrapStorageErrors, Except.map]
  · intro gw bucket root backup chunks h
    by_cases hsz : backup.size < CHUNK_THRESHOLD_BYTES
    · rcases hps : putSingleRun gw bucket
          (root ++ (deriveObjectNames backup.filename).1) chunks with ⟨evs0, r0⟩
      cases r0 with
      | some e =>
        have hrun : uploadBackupRun gw bucket root backup chunks
            = (evs0, some (wrapUploadErr e)) := by
          simp only [uploadBackupRun_small gw bucket root backup chunks hsz, hps]
        rw [hrun] at h
        exact wrapUploadErr_ne_boto e (Option.some.inj h)
      | none =>
        have hrun : uploadBackupRun gw bucket root backup chunks
            = metaWrite gw bucket (root ++ (deriveObjectNames backup.filename).2)
                backup.meta evs0 := by
          simp only [uploadBackupRun_small gw bucket root backup chunks hsz, hps]
        rw [hrun] at h
        exact metaWrite_snd_ne gw bucket _ _ _ h
    · rcases hpc : putChunkedRun gw bucket
          (root ++ (deriveObjectNames backup.filename).1)
          CHUNK_THRESHOLD_BYTES chunks with ⟨evs0, r0⟩
      cases r0 with
      | some e =>
        have hrun : uploadBackupRun gw bucket root backup chunks
            = (evs0, some (wrapUploadErr e)) := by
          simp only [uploadBackupRun_big gw bucket root backup chunks hsz, hpc]
        rw [hrun] at h
        exact wrapUploadErr_ne_boto e (Option.some.inj h)
      | none =>
        have hrun : uploadBackupRun gw bucket root backup chunks
            = metaWrite gw bucket (root ++ (deriveObjectNames backup.filename).2)
                backup.meta evs0 := by
          simp only [uploadBackupRun_big gw bucket root backup chunks hsz, hpc]
        rw [hrun] at h
        exact metaWrite_snd_ne gw bucket _ _ _ h

/-- Concrete evaluation backing `c4_boto_errors_wrapped`: a
`BotoCoreError` from the listing call itself is wrapped and annotated. -/
theorem c4_boto_errors_wrapped_witness :
    (listAll [PageResult.botoCoreError] 1 ⟨[], 0⟩).1 = .error .botoCoreError
    ∧ (asyncListBackups [PageResult.botoCoreError] 1 ⟨[], 0⟩).1
        = .error (.backupAgentError "async_list_backups failed") :=
  ⟨rfl, (c4_boto_errors_wrapped [PageResult.botoCoreError] 1 ⟨[], 0⟩).1 rfl⟩

end CloudStash
